import Mathlib

/-!
Verification development for the Siklu EH Ansible collection
(plugins/module_utils/siklu_eh/parsers.py, plugins/module_utils/parsers.py,
plugins/modules/siklu_config.py).

The Python sources are shallowly embedded here: strings are lists of
characters (ASCII subset of the Python semantics), the regular expressions
used by the parsers are translated into deterministic matching functions
that mirror the backtracking behaviour of the concrete patterns, Python
dictionaries keyed by integers become insertion-ordered association lists
with unique keys, and the recursive inventory hierarchy walk (which has no
termination guard in the source) is embedded with an explicit recursion
budget so that its divergence is observable as fuel exhaustion at every
budget.
-/

namespace SikluEH

/-- Python character strings are modelled as lists of characters. -/
abbrev Str := List Char

/-- Membership of a character in the Python regex class backslash-s and in
the default strip set, restricted to ASCII: space, tab, newline, carriage
return, vertical tab, form feed. -/
def pyWS (c : Char) : Bool :=
  c.toNat = 32 || c.toNat = 9 || c.toNat = 10 || c.toNat = 13 ||
  c.toNat = 11 || c.toNat = 12

/-- ASCII decimal digit test (the regex class backslash-d of the source,
restricted to ASCII). -/
def isDig (c : Char) : Bool := 48 ≤ c.toNat && c.toNat ≤ 57

/-- ASCII lower-casing of one character, as used by the Python lower()
calls and by case-insensitive regex matching in the source. -/
def lcChar (c : Char) : Char :=
  if 65 ≤ c.toNat && c.toNat ≤ 90 then Char.ofNat (c.toNat + 32) else c

/-- Python str.lower restricted to ASCII. -/
def lowerStr (s : Str) : Str := s.map lcChar

/-- Python str.lstrip with the default whitespace set. -/
def stripLeft (s : Str) : Str := s.dropWhile pyWS

/-- Python str.rstrip with the default whitespace set. -/
def stripRight (s : Str) : Str := (stripLeft s.reverse).reverse

/-- Python str.strip with the default whitespace set. -/
def pyStrip (s : Str) : Str := stripRight (stripLeft s)

/-- Python str.split with separator a single newline: the string is cut at
every newline character, and empty pieces are kept. -/
def splitNl : Str → List Str
  | [] => [[]]
  | c :: cs =>
    if c = '\n' then [] :: splitNl cs
    else
      match splitNl cs with
      | [] => [[c]]
      | l :: ls => (c :: l) :: ls

/-- One step of the substring test: does pat occur at the very front? -/
def atFront (pat s : Str) : Bool := List.isPrefixOf pat s

/-- Python substring containment (the in operator on strings). -/
def containsSub (pat : Str) : Str → Bool
  | [] => atFront pat []
  | c :: cs => atFront pat (c :: cs) || containsSub pat cs

/-- Case-sensitive literal regex piece: consume pat from the front of the
input and return the rest, or fail. -/
def lit : Str → Str → Option Str
  | [], s => some s
  | _ :: _, [] => none
  | p :: ps, c :: cs => if p = c then lit ps cs else none

/-- Case-insensitive literal regex piece (the source compiles the
acknowledgement and table patterns with re.IGNORECASE). -/
def litCI : Str → Str → Option Str
  | [], s => some s
  | _ :: _, [] => none
  | p :: ps, c :: cs => if lcChar p = lcChar c then litCI ps cs else none

/-- Greedy regex piece backslash-s-plus: at least one whitespace character,
then as many as possible.  In every pattern of the source this piece is
followed by a token that cannot start with whitespace, so the greedy
no-backtracking reading is exact. -/
def ws1 : Str → Option Str
  | [] => none
  | c :: cs => if pyWS c then some (cs.dropWhile pyWS) else none

/-- Greedy regex piece backslash-d-plus: a nonempty maximal digit run,
returned together with the rest of the input. -/
def digits1 (s : Str) : Option (Str × Str) :=
  match s.takeWhile isDig with
  | [] => none
  | d :: ds => some (d :: ds, s.dropWhile isDig)

/-- Greedy regex piece backslash-S-plus: a nonempty maximal run of
non-whitespace characters. -/
def nonws1 (s : Str) : Option (Str × Str) :=
  match s.takeWhile (fun c => !pyWS c) with
  | [] => none
  | d :: ds => some (d :: ds, s.dropWhile (fun c => !pyWS c))

/-- Numeric value of a digit run (most significant first). -/
def natOfDigits (ds : Str) : Nat :=
  ds.foldl (fun a c => a * 10 + (c.toNat - 48)) 0

/-- Digit characters of a natural number, via a structurally decreasing
fuel argument so that the definition reduces in the kernel.  The fuel
n + 1 always suffices. -/
def natDigitsAux : Nat → Nat → List Char
  | 0, _ => []
  | fuel + 1, n =>
    if n < 10 then [Char.ofNat (48 + n)]
    else natDigitsAux fuel (n / 10) ++ [Char.ofNat (48 + n % 10)]

/-- Decimal representation of a natural number, as produced by the Python
str builtin inside the f-strings of the source. -/
def natDigits (n : Nat) : List Char := natDigitsAux (n + 1) n

/-- Decimal string of a natural number. -/
def natStr (n : Nat) : String := ⟨natDigits n⟩

/-- Tail of the Python int builtin: a digit run in which single
underscores may separate two digits; returns the accumulated value only
when the whole input is consumed. -/
def digitsUAux : Str → Nat → Option Nat
  | [], acc => some acc
  | c :: cs, acc =>
    if isDig c then digitsUAux cs (acc * 10 + (c.toNat - 48))
    else if c = '_' then
      match cs with
      | [] => none
      | d :: cs' =>
        if isDig d then digitsUAux cs' (acc * 10 + (d.toNat - 48)) else none
    else none

/-- Unsigned part of the Python int builtin: at least one digit, then
digits possibly separated by single underscores. -/
def pyUnsigned : Str → Option Nat
  | [] => none
  | c :: cs => if isDig c then digitsUAux cs (c.toNat - 48) else none

/-- The Python int builtin applied to a string (ASCII subset): surrounding
whitespace is ignored, an optional single sign precedes the digits, and
single underscores may separate digits.  none models a raised ValueError. -/
def pyInt? (s : Str) : Option Int :=
  match pyStrip s with
  | [] => none
  | c :: rest =>
    if c = '+' then (pyUnsigned rest).map Int.ofNat
    else if c = '-' then (pyUnsigned rest).map (fun n => -(n : Int))
    else (pyUnsigned (c :: rest)).map Int.ofNat

/-- Sentinel normalisation of the source (the helper named with a leading
underscore and the words normalize empty value): empty or
whitespace-only values and the case-insensitive tokens n/a and default
collapse to absence; every other value is stripped. -/
def normEmpty (v : Str) : Option Str :=
  if pyStrip v = [] then none
  else if lowerStr (pyStrip v) = ("n/a").data then none
  else if lowerStr (pyStrip v) = ("default").data then none
  else some (pyStrip v)

/-- Integer coercion of the source (the helper convert to int):
sentinel-normalise, then attempt the int builtin; any failure yields
absence instead of an exception. -/
def convertToInt (v : Str) : Option Int :=
  match normEmpty v with
  | none => none
  | some n => pyInt? n

/-- Boolean coercion of the source (the helper convert to bool):
recognises exactly the case-insensitive tokens true and false. -/
def convertToBool (v : Str) : Option Bool :=
  match normEmpty v with
  | none => none
  | some n =>
    if lowerStr n = ("true").data then some true
    else if lowerStr n = ("false").data then some false
    else none

/-- Characters before the first colon of a line (Python split on a colon
with maxsplit one, first component). -/
def beforeColon : Str → Str
  | [] => []
  | c :: cs => if c = ':' then [] else c :: beforeColon cs

/-- Characters after the first colon of a line (Python split on a colon
with maxsplit one, second component; empty when there is no colon). -/
def afterColon : Str → Str
  | [] => []
  | c :: cs => if c = ':' then cs else afterColon cs

/-- One attempted match, at the current position, of the acknowledgement
pattern: the literal Set done and a colon, whitespace, the subject word,
whitespace, then the decimal digits of the requested slot.  The source
compiles the pattern with re.IGNORECASE and writes no boundary after the
slot digits, so input beyond them is unconstrained. -/
def matchAckAt (subj slotDs : Str) (cs : Str) : Bool :=
  (((((litCI (("set done:").data) cs).bind ws1).bind
    (litCI subj)).bind ws1).bind (litCI slotDs)).isSome

/-- Unanchored regex search (re.search): try the matcher at every start
position of the input. -/
def searchB (m : Str → Bool) : Str → Bool
  | [] => m []
  | c :: cs => m (c :: cs) || searchB m cs

/-- The set ip response validator of the source (validate set ip
response): search the output, case-insensitively, for the pattern Set
done colon, whitespace, ip, whitespace, then the decimal digits of the
requested slot. -/
def validate_set_ip_response (output : String) (slot : Nat) : Bool :=
  searchB (matchAckAt (("ip").data) (natDigits slot)) output.data

/-- The set route response validator of the source (validate set route
response), identical to the ip validator with subject word route. -/
def validate_set_route_response (output : String) (slot : Nat) : Bool :=
  searchB (matchAckAt (("route").data) (natDigits slot)) output.data

/-- Result of decoding the rollback status output: whether the rollback
timer is active and its timeout if one was read. -/
structure RollbackSt where
  active : Bool
  timeout : Option Int
deriving DecidableEq, Repr

/-- Processing of one line of the rollback status output, mirroring the
loop body of parse rollback status in the source: strip, skip empty and
comment lines, split at the first colon, and when the lowered key contains
the words rollback timeout, either recognise the literal not started
(case-insensitively) or attempt integer coercion, leaving the state
unchanged when the coercion fails. -/
def rollbackLine (st : RollbackSt) (line : Str) : RollbackSt :=
  let l := pyStrip line
  if l = [] then st
  else if l.head? = some '#' then st
  else if containsSub ([':']) l then
    let k := lowerStr (pyStrip (beforeColon l))
    let v := pyStrip (afterColon l)
    if containsSub (("rollback timeout").data) k then
      if lowerStr v = ("not started").data then { active := false, timeout := none }
      else
        match convertToInt v with
        | some t => { active := true, timeout := some t }
        | none => st
    else st
  else st

/-- The rollback status decoder of the source (parse rollback status):
fold the line processor over the newline-split, stripped output, starting
from the inactive state. -/
def parse_rollback_status (output : String) : RollbackSt :=
  (splitNl (pyStrip output.data)).foldl rollbackLine { active := false, timeout := none }

/-- One software bank row of the show sw table: version string, bank
number, scheduled flag and startup-config flag. -/
structure SwBank where
  version : String
  bank : Nat
  scheduled_to_run : Bool
  startup_config : Bool
deriving DecidableEq, Repr

/-- Result of decoding the show sw table: the running and standby groups,
each possibly absent. -/
structure SwInfo where
  running : Option SwBank := none
  standby : Option SwBank := none
deriving DecidableEq, Repr

/-- The yes/no alternation of the table pattern, case-insensitive.  The
two alternatives start with distinct letters, so committed choice is
equivalent to regex alternation here. -/
def yesno (cs : Str) : Option (Bool × Str) :=
  match litCI (("yes").data) cs with
  | some r => some (true, r)
  | none =>
    match litCI (("no").data) cs with
    | some r => some (false, r)
    | none => none

/-- The exists/missing alternation ending the table pattern; nothing
follows it in the pattern, so only the prefix is constrained. -/
def existsMissing (cs : Str) : Option Bool :=
  match litCI (("exists").data) cs with
  | some _ => some true
  | none =>
    match litCI (("missing").data) cs with
    | some _ => some false
    | none => none

/-- The anchored table-row pattern of the source: optional leading
whitespace, bank digits, whitespace, version token, whitespace, yes/no
running flag, whitespace, yes/no scheduled flag, whitespace, then exists
or missing; input beyond that is unconstrained.  Returns the bank data
and the running flag. -/
def matchSwRow (cs : Str) : Option (SwBank × Bool) :=
  (digits1 (cs.dropWhile pyWS)).bind fun dr =>
  (ws1 dr.2).bind fun r2 =>
  (nonws1 r2).bind fun vr =>
  (ws1 vr.2).bind fun r4 =>
  (yesno r4).bind fun runr =>
  (ws1 runr.2).bind fun r6 =>
  (yesno r6).bind fun schedr =>
  (ws1 schedr.2).bind fun r8 =>
  (existsMissing r8).map fun cfg =>
    ({ version := ⟨vr.1⟩, bank := natOfDigits dr.1,
       scheduled_to_run := schedr.1, startup_config := cfg }, runr.1)

/-- One line of the show sw output: lines containing the header anchor
Flash Bank and blank lines are skipped before the row pattern is tried. -/
def swRow (line : Str) : Option (SwBank × Bool) :=
  if containsSub (("Flash Bank").data) line then none
  else if pyStrip line = [] then none
  else matchSwRow line

/-- State update of the show sw decoder: a row with running yes is stored
in the running group, any other row in the standby group; a later row
overwrites an earlier one in the same group. -/
def swUpd (st : SwInfo) (line : Str) : SwInfo :=
  match swRow line with
  | none => st
  | some (b, true) => { st with running := some b }
  | some (b, false) => { st with standby := some b }

/-- The show sw decoder of the source (parse sw info). -/
def parse_sw_info (output : String) : SwInfo :=
  (splitNl output.data).foldl swUpd {}

/-- The parsed rows of the show sw output in input order. -/
def swRows (output : String) : List (SwBank × Bool) :=
  (splitNl output.data).filterMap swRow

/-- The last element of a list satisfying a predicate: the final claiming
row, in the words of the amended claim. -/
def lastClaim (p : α → Bool) : List α → Option α
  | [] => none
  | x :: xs =>
    match lastClaim p xs with
    | some y => some y
    | none => if p x then some x else none

/-- Python str.splitlines restricted to the ASCII terminators newline,
carriage return, the pair carriage return plus newline, vertical tab and
form feed; a final line without terminator is kept, a trailing terminator
adds no empty line. -/
def slAux : Str → Str → List Str
  | [], acc => if acc = [] then [] else [acc.reverse]
  | '\r' :: '\n' :: cs, acc => acc.reverse :: slAux cs []
  | c :: cs, acc =>
    if c = '\n' || c = '\r' || c = '\x0b' || c = '\x0c' then
      acc.reverse :: slAux cs []
    else slAux cs (c :: acc)

/-- Python str.splitlines (ASCII subset). -/
def pySplitlines (s : Str) : List Str := slAux s []

/-- Lookup in the insertion-ordered association-list model of a Python
dict keyed by integers. -/
def lookupD (k : Nat) (d : List (Nat × α)) : Option α :=
  (d.find? (fun p => p.1 == k)).map (fun p => p.2)

/-- Assignment in the dict model: an existing key keeps its position and
gets the new value, a new key is appended. -/
def setD (k : Nat) (v : α) (d : List (Nat × α)) : List (Nat × α) :=
  if (d.find? (fun p => p.1 == k)).isSome then
    d.map (fun p => if p.1 == k then (k, v) else p)
  else d ++ [(k, v)]

/-- In-place update of the value at a key in the dict model (used where
the source mutates an entry that is known to exist). -/
def updD (k : Nat) (f : α → α) (d : List (Nat × α)) : List (Nat × α) :=
  d.map (fun p => if p.1 == k then (p.1, f p.2) else p)

/-- One slot record of the slot-keyed show ip decoder: the fields the
source may store for a slot. -/
structure IpRec where
  ip : Option String := none
  prefix_len : Option Nat := none
  vlan : Option Nat := none
  default_gateway : Option String := none
deriving DecidableEq, Repr

/-- Python truthiness of the record dict: nonempty iff some field is
present. -/
def IpRec.truthy (r : IpRec) : Bool :=
  r.ip.isSome || r.prefix_len.isSome || r.vlan.isSome || r.default_gateway.isSome

/-- The anchored pattern ip, whitespace, slot digits, whitespace, the
literal ip-addr, whitespace, colon, whitespace, an optional static
qualifier, then the address token.  The optional group is tried first and
abandoned when no token would remain for the final group, mirroring the
regex backtracking. -/
def matchIpAddrLine (cs : Str) : Option (Nat × String) :=
  (lit (("ip").data) cs).bind fun r1 =>
  (ws1 r1).bind fun r2 =>
  (digits1 r2).bind fun dr =>
  (ws1 dr.2).bind fun r3 =>
  (lit (("ip-addr").data) r3).bind fun r4 =>
  (ws1 r4).bind fun r5 =>
  (lit ([':']) r5).bind fun r6 =>
  (ws1 r6).bind fun r7 =>
  let r8 :=
    match (lit (("static").data) r7).bind ws1 with
    | some r => if (nonws1 r).isSome then r else r7
    | none => r7
  (nonws1 r8).map fun tr => (natOfDigits dr.1, (⟨tr.1⟩ : String))

/-- The anchored pattern ip, whitespace, slot digits (not captured by the
source), whitespace, the given literal key, whitespace, colon, whitespace,
then a digit group. -/
def matchIpFieldNat (key : Str) (cs : Str) : Option Nat :=
  (lit (("ip").data) cs).bind fun r1 =>
  (ws1 r1).bind fun r2 =>
  (digits1 r2).bind fun dr =>
  (ws1 dr.2).bind fun r3 =>
  (lit key r3).bind fun r4 =>
  (ws1 r4).bind fun r5 =>
  (lit ([':']) r5).bind fun r6 =>
  (ws1 r6).bind fun r7 =>
  (digits1 r7).map fun dr2 => natOfDigits dr2.1

/-- As matchIpFieldNat but with a non-whitespace token group. -/
def matchIpFieldTok (key : Str) (cs : Str) : Option String :=
  (lit (("ip").data) cs).bind fun r1 =>
  (ws1 r1).bind fun r2 =>
  (digits1 r2).bind fun dr =>
  (ws1 dr.2).bind fun r3 =>
  (lit key r3).bind fun r4 =>
  (ws1 r4).bind fun r5 =>
  (lit ([':']) r5).bind fun r6 =>
  (ws1 r6).bind fun r7 =>
  (nonws1 r7).map fun tr => (⟨tr.1⟩ : String)

/-- Fold state of the slot-keyed show ip decoder: the dict built so far
and the slot of the most recent address line (zero initially; the source
uses zero both as the initial marker and as a possible real slot). -/
structure IpSt where
  cfg : List (Nat × IpRec) := []
  cur : Nat := 0

/-- Last follow-on attempt of the slot-keyed decoder: the
default-gateway line pattern. -/
def ipTryGw (st : IpSt) (l : Str) : IpSt :=
  match matchIpFieldTok (("default-gateway").data) l with
  | some g =>
    { st with cfg := updD st.cur (fun r => { r with default_gateway := some g }) st.cfg }
  | none => st

/-- Follow-on attempt of the slot-keyed decoder: the vlan line pattern,
then the default-gateway pattern. -/
def ipTryVlan (st : IpSt) (l : Str) : IpSt :=
  match matchIpFieldNat (("vlan").data) l with
  | some n =>
    { st with cfg := updD st.cur (fun r => { r with vlan := some n }) st.cfg }
  | none => ipTryGw st l

/-- Follow-on attempts of the slot-keyed decoder in source order:
prefix-len, then vlan, then default-gateway.  These patterns do not
compare their own printed slot digits; the value is stored under the slot
of the most recent address line (the cur field of the state). -/
def ipTryPrefix (st : IpSt) (l : Str) : IpSt :=
  match matchIpFieldNat (("prefix-len").data) l with
  | some n =>
    { st with cfg := updD st.cur (fun r => { r with prefix_len := some n }) st.cfg }
  | none => ipTryVlan st l

/-- One stripped line of the slot-keyed show ip decoder (the siklu-eh
parse ip config): an address line opens a fresh record for its slot —
discarding any fields previously stored for that slot — otherwise, when a
current slot is open, the follow-on field patterns are tried in order. -/
def ipLineCore (st : IpSt) (l : Str) : IpSt :=
  if l = [] then st
  else
    match matchIpAddrLine l with
    | some sv => { cfg := setD sv.1 { ip := some sv.2 } st.cfg, cur := sv.1 }
    | none => if st.cur = 0 then st else ipTryPrefix st l

/-- One raw line of the decoder: the source strips each line first. -/
def ipLine (st : IpSt) (line : Str) : IpSt := ipLineCore st (pyStrip line)

/-- The slot-keyed show ip decoder of the siklu-eh module utilities. -/
def parse_ip_config (output : String) : List (Nat × IpRec) :=
  ((splitNl output.data).foldl ipLine {}).cfg

/-- A command mutates the device iff it is a set command; the only
commands this module sends are show ip and set ip. -/
def isMutatingCmd (c : String) : Bool := List.isPrefixOf (("set ").data) c.data

/-- One desired IP configuration item of the configuration module. -/
structure IpItem where
  slot : Nat
  ip_address : String
  prefix_len : Nat
  vlan : Nat

/-- Result record of one IP reconciliation, mirroring the keys the source
sets (diagnostic message texts are abbreviated). -/
structure IpResult where
  slot : Nat
  changed : Bool
  failed : Bool
  msg : String
  config : Option IpRec
deriving Repr

/-- The IP reconciliation of the configuration module (configure ip).
The transport is a state machine: step takes the device state and a
command text and yields the response text and the next state.  The
function returns the result record, the list of commands sent in order,
and the final device state.  The source wraps the body in a broad
exception handler; the two explicit raise sites become failed results. -/
def configure_ip {σ : Type} (step : σ → String → String × σ) (s0 : σ)
    (it : IpItem) : IpResult × List String × σ :=
  let readCmd := ("show ip ") ++ natStr it.slot
  let o1 := step s0 readCmd
  let current := lookupD it.slot (parse_ip_config o1.1)
  let ok :=
    match current with
    | some r => r.truthy && (r.ip == some it.ip_address) &&
        (r.prefix_len == some it.prefix_len) && (r.vlan == some it.vlan)
    | none => false
  if ok then
    ({ slot := it.slot, changed := false, failed := false,
       msg := ("IP slot ") ++ natStr it.slot ++ (" already configured correctly"),
       config := current }, [readCmd], o1.2)
  else
    let setCmd := ("set ip ") ++ natStr it.slot ++ (" ip-addr ") ++ it.ip_address ++
      (" prefix-len ") ++ natStr it.prefix_len ++ (" vlan ") ++ natStr it.vlan
    let o2 := step o1.2 setCmd
    if validate_set_ip_response o2.1 it.slot = false then
      ({ slot := it.slot, changed := false, failed := true,
         msg := ("Failed to configure IP: ") ++ o2.1, config := none },
       [readCmd, setCmd], o2.2)
    else
      let o3 := step o2.2 readCmd
      let updated := (lookupD it.slot (parse_ip_config o3.1)).getD {}
      if updated.ip ≠ some it.ip_address ∨ updated.prefix_len ≠ some it.prefix_len ∨
          updated.vlan ≠ some it.vlan then
        ({ slot := it.slot, changed := false, failed := true,
           msg := ("Configuration verification failed"), config := none },
         [readCmd, setCmd, readCmd], o3.2)
      else
        ({ slot := it.slot, changed := true, failed := false,
           msg := ("IP slot ") ++ natStr it.slot ++ (" configured successfully"),
           config := some updated }, [readCmd, setCmd, readCmd], o3.2)

/-- Candidate split of the generic pattern: non-whitespace run, optional
whitespace, colon, optional whitespace, then the value group, trying key
lengths from longest to shortest exactly as the regex backtracks.  When
reqNE is set the value group must be nonempty (the dot-plus variant);
callers pass stripped lines, for which emptiness of the
whitespace-trimmed remainder coincides with failure of the dot-plus
group. -/
def kcvIdx (run rest0 : Str) (reqNE : Bool) : Nat → Option (Str × Str)
  | 0 => none
  | l + 1 =>
    let cand : Option (Str × Str) :=
      if l + 1 = run.length then
        match rest0.dropWhile pyWS with
        | ':' :: cr =>
          let v := cr.dropWhile pyWS
          if reqNE && v.isEmpty then none else some (run, v)
        | _ => none
      else
        match run.drop (l + 1) with
        | ':' :: cr =>
          let v := (cr ++ rest0).dropWhile pyWS
          if reqNE && v.isEmpty then none else some (run.take (l + 1), v)
        | _ => none
    match cand with
    | some kv => some kv
    | none => kcvIdx run rest0 reqNE l

/-- The generic key colon value grammar of the module-utils parsers:
match a nonempty non-whitespace key (backtracking across embedded colons),
an optional-whitespace colon optional-whitespace separator, and the rest
of the line as value. -/
def keyColonVal (reqNE : Bool) (cs : Str) : Option (Str × Str) :=
  match cs.takeWhile (fun c => !pyWS c) with
  | [] => none
  | d :: ds =>
    kcvIdx (d :: ds) (cs.dropWhile (fun c => !pyWS c)) reqNE (d :: ds).length

/-- Python str.replace of dashes by underscores, applied to field keys. -/
def dashToUnderscore (s : Str) : Str :=
  s.map (fun c => if c = '-' then '_' else c)

/-- One record of the list-based show ip decoder of the shared
module-utils parsers: the slot number and the accumulated fields.  (If an
input line carried the literal key slot, the source would overwrite the
slot entry of the dict; the claims exercised here use no such key.) -/
structure MuRec where
  slot : Nat
  fields : List (String × Option String)
deriving DecidableEq, Repr

/-- Dict-style upsert for string-keyed fields: an existing key keeps its
position, a new key is appended. -/
def upsertF (k : String) (v : Option String) :
    List (String × Option String) → List (String × Option String)
  | [] => [(k, v)]
  | p :: ps => if p.1 = k then (k, v) :: ps else p :: upsertF k v ps

/-- The anchored pattern of the list-based decoder: ip, whitespace, slot
digits, whitespace, then the generic key colon value grammar with a
nonempty value group. -/
def matchMuIpLine (cs : Str) : Option (Nat × Str × Str) :=
  (lit (("ip").data) cs).bind fun r1 =>
  (ws1 r1).bind fun r2 =>
  (digits1 r2).bind fun dr =>
  (ws1 dr.2).bind fun r3 =>
  (keyColonVal true r3).map fun kv => (natOfDigits dr.1, kv.1, kv.2)

/-- Fold state of the list-based show ip decoder: completed records, the
slot of the current run of lines, and the fields accumulated for it. -/
structure MuSt where
  acc : List MuRec := []
  cur : Option Nat := none
  curFields : List (String × Option String) := []

/-- Closing the current record, if one is open, onto the accumulator. -/
def muFlush (st : MuSt) : List MuRec :=
  match st.cur with
  | none => st.acc
  | some s => st.acc ++ [{ slot := s, fields := st.curFields }]

/-- One line of the list-based show ip decoder (the module-utils parse ip
config): a line whose printed slot differs from the current one closes
the current record and opens a new one, so non-contiguous lines for the
same slot produce separate records. -/
def muIpLine (st : MuSt) (line : Str) : MuSt :=
  let l := pyStrip line
  if l = [] then st
  else if l.head? = some '#' then st
  else
    match matchMuIpLine l with
    | none => st
    | some (slot, key, valRaw) =>
      let key2 : String := ⟨dashToUnderscore key⟩
      let v : Option String := (normEmpty valRaw).map (fun s => (⟨s⟩ : String))
      let st1 :=
        if st.cur ≠ some slot then
          { acc := muFlush st, cur := some slot, curFields := [] }
        else st
      { st1 with curFields := upsertF key2 v st1.curFields }

/-- The list-based show ip decoder of the shared module-utils parsers. -/
def parse_ip_config_mu (output : String) : List MuRec :=
  muFlush ((pySplitlines output.data).foldl muIpLine {})

/-- Error of the embedded inventory decoder: exhaustion of the recursion
budget renders the unbounded recursion of the source (a Python
RecursionError), and the type error renders the comparison of a None sort
key inside list.sort (a Python TypeError). -/
inductive InvErr where
  | recursionLimit
  | typeErr
deriving DecidableEq, Repr

/-- One flat inventory component record.  The cont-in entry collapses key
presence and stored value into the joined view, because the source only
reads it through dict get, which returns None both for a missing key and
for a stored None; rel-pos keeps presence and value apart because the
sibling sort key defaults to 999 only when the key is missing; an input
line with the literal key id overwrites the integer id entry with a
string, recorded here as idOverride. -/
structure InvComp where
  id : Nat
  cont_in : Option Int := none
  rel_pos : Option (Option Int) := none
  fru : Option (Option Bool) := none
  idOverride : Option String := none
  fields : List (String × String) := []
deriving DecidableEq, Repr

/-- Dict-style upsert for string-keyed string fields. -/
def upsertS (k v : String) : List (String × String) → List (String × String)
  | [] => [(k, v)]
  | p :: ps => if p.1 = k then (k, v) :: ps else p :: upsertS k v ps

/-- Storing one parsed key and value into a component record, with the
per-key coercions of the source: cont-in and rel-pos through integer
coercion, fru through boolean coercion, and every other key
sentinel-normalised and dropped when the value is a sentinel. -/
def invUpd (c : InvComp) (key v : Str) : InvComp :=
  if key = ("cont_in").data then { c with cont_in := convertToInt v }
  else if key = ("rel_pos").data then { c with rel_pos := some (convertToInt v) }
  else if key = ("fru").data then { c with fru := some (convertToBool v) }
  else
    match normEmpty v with
    | none => c
    | some nv =>
      if key = ("id").data then { c with idOverride := some (⟨nv⟩ : String) }
      else { c with fields := upsertS (⟨key⟩ : String) (⟨nv⟩ : String) c.fields }

/-- Match of the inventory line pattern: the literal inventory,
whitespace, the component id digits, whitespace, then the generic key
colon value grammar with a possibly empty value group. -/
def matchInvLine (cs : Str) : Option (Nat × Str × Str) :=
  (lit (("inventory").data) cs).bind fun r1 =>
  (ws1 r1).bind fun r2 =>
  (digits1 r2).bind fun dr =>
  (ws1 dr.2).bind fun r3 =>
  (keyColonVal false r3).map fun kv => (natOfDigits dr.1, kv.1, kv.2)

/-- Applying one matched inventory line: the component dict entry is
created on first sight of the id, then mutated in place. -/
def invApply (m : List (Nat × InvComp)) (cid : Nat) (key v : Str) :
    List (Nat × InvComp) :=
  updD cid (fun c => invUpd c key v)
    (if (lookupD cid m).isSome then m else m ++ [(cid, { id := cid })])

/-- One stripped line of the inventory decoder. -/
def invLineCore (m : List (Nat × InvComp)) (l : Str) : List (Nat × InvComp) :=
  if l = [] then m
  else
    match matchInvLine l with
    | none => m
    | some kv => invApply m kv.1 (dashToUnderscore kv.2.1) (pyStrip kv.2.2)

/-- One raw line of the inventory decoder (the source strips each line). -/
def invLine (m : List (Nat × InvComp)) (line : Str) : List (Nat × InvComp) :=
  invLineCore m (pyStrip line)

/-- The flat component collection pass of the inventory decoder. -/
def collectInv (output : String) : List (Nat × InvComp) :=
  (splitNl (pyStrip output.data)).foldl invLine []

/-- One node of the assembled inventory tree: the flat record plus the
components entry; an absent entry models a dict without the components
key. -/
inductive TreeNode where
  | mk : InvComp → Option (List TreeNode) → TreeNode

/-- The flat record of a node. -/
def TreeNode.flat : TreeNode → InvComp
  | .mk f _ => f

/-- The components entry of a node. -/
def TreeNode.components : TreeNode → Option (List TreeNode)
  | .mk _ c => c

/-- Building one tree node: the flat record is copied and its components
entry is set to the children list, overwriting any string field stored
under the literal key components, exactly as the dict assignment of the
source overwrites it. -/
def mkNode (flat : InvComp) (children : List TreeNode) : TreeNode :=
  .mk { flat with fields := flat.fields.filter (fun kv => kv.1 != ("components")) }
    (some children)

/-- The sibling sort key of the source: the rel-pos entry through dict
get with default 999 — a missing key gives 999, while a key stored as
None yields the None whose comparison raises inside list.sort. -/
def sortKeyOf (n : TreeNode) : Option Int :=
  match n.flat.rel_pos with
  | none => some 999
  | some v => v

/-- The sibling order: ascending effective sort key. -/
def nodeLe (a b : TreeNode) : Prop :=
  (sortKeyOf a).getD 999 ≤ (sortKeyOf b).getD 999

instance : DecidableRel nodeLe :=
  fun _ _ => inferInstanceAs (Decidable (_ ≤ _))

instance : IsTotal TreeNode nodeLe :=
  ⟨fun _ _ => Int.le_total _ _⟩

instance : IsTrans TreeNode nodeLe :=
  ⟨fun _ _ _ hab hbc => le_trans hab hbc⟩

/-- Python list.sort with the rel-pos key: a list of length at most one
compares nothing; otherwise a None key makes the comparison raise, and
with every key present the sort is stable ascending, embedded by the
stable insertion sort. -/
def sortSiblings (l : List TreeNode) : Except InvErr (List TreeNode) :=
  if l.length ≤ 1 then .ok l
  else if l.any (fun n => (sortKeyOf n).isNone) then .error .typeErr
  else .ok (l.insertionSort nodeLe)

/-- The recursive hierarchy walk of the source (build hierarchy) with an
explicit recursion budget: the source has no guard against cyclic cont-in
references, so the walk can recurse without bound; failure at every
budget renders that divergence. -/
def buildH (m : List (Nat × InvComp)) : Nat → Nat → Except InvErr (List TreeNode)
  | 0, _ => .error .recursionLimit
  | fuel + 1, pid =>
    ((m.filter (fun p => p.2.cont_in == some ((pid : Nat) : Int))).mapM
      (fun p => (buildH m fuel p.1).map (fun nested => mkNode p.2 nested))).bind
      sortSiblings

/-- The chassis id check of the source: the id entry of the chassis dict
must still be an integer (an input line with key id overwrites it with a
string and the isinstance check then fails). -/
def chassisIdOf (c : InvComp) : Option Nat :=
  match c.idOverride with
  | some _ => none
  | none => some c.id

/-- Result of the inventory decoder: the chassis tree, or none for the
empty chassis dict the source returns when no root is found. -/
structure InvResult where
  chassis : Option TreeNode

/-- Assembly pass of the inventory decoder over the collected flat
records. -/
def assembleInv (m : List (Nat × InvComp)) (fuel : Nat) : Except InvErr InvResult :=
  match m.find? (fun p => p.2.cont_in == some (0 : Int)) with
  | none => .ok ⟨none⟩
  | some p =>
    match chassisIdOf p.2 with
    | none => .ok ⟨none⟩
    | some cid => (buildH m fuel cid).map (fun comps => ⟨some (mkNode p.2 comps)⟩)

/-- The inventory decoder of the source (parse inventory), with an
explicit recursion budget for the hierarchy walk. -/
def parse_inventoryE (output : String) (fuel : Nat) : Except InvErr InvResult :=
  assembleInv (collectInv output) fuel

/-- The decode of this output never returns: every recursion budget is
exhausted.  This is the budget-indexed rendering of unbounded recursion
in the source (a Python RecursionError). -/
def inventoryDiverges (output : String) : Prop :=
  ∀ fuel : Nat, parse_inventoryE output fuel = Except.error InvErr.recursionLimit

/-- The parent map read from the flat records: the cont-in entry of the
record with the given id. -/
def parentMapOf (m : List (Nat × InvComp)) : Nat → Option Int :=
  fun i => (lookupD i m).bind (fun c => c.cont_in)

/-- The id chain of a record reaches the root marker zero through the
parent map: either its cont-in is zero, or its cont-in names a record
whose chain reaches zero.  The orphan of the claim is precisely a record
whose id does not satisfy this predicate. -/
inductive ReachesRoot (pm : Nat → Option Int) : Nat → Prop where
  | base : ∀ i, pm i = some 0 → ReachesRoot pm i
  | step : ∀ i p, pm i = some ((p : Nat) : Int) → ReachesRoot pm p → ReachesRoot pm i

mutual

/-- The ids of a node and of all its descendants. -/
def nodeIds : TreeNode → List Nat
  | .mk f cs => f.id :: optNodeIds cs

/-- The ids under an optional components entry. -/
def optNodeIds : Option (List TreeNode) → List Nat
  | none => []
  | some l => listNodeIds l

/-- The ids of all nodes of a forest. -/
def listNodeIds : List TreeNode → List Nat
  | [] => []
  | n :: ns => nodeIds n ++ listNodeIds ns

end

/-- The ids appearing anywhere in a decode result. -/
def resultIds (r : InvResult) : List Nat :=
  match r.chassis with
  | none => []
  | some n => nodeIds n

/-- Every sibling list in the tree, the chassis children included, is
sorted by the effective rel-pos key, and so on recursively. -/
inductive SortedTree : TreeNode → Prop where
  | mk : ∀ (f : InvComp) (cs : Option (List TreeNode)),
      (∀ l, cs = some l → l.Sorted nodeLe) →
      (∀ l, cs = some l → ∀ n ∈ l, SortedTree n) →
      SortedTree (.mk f cs)

/-- Every node of the tree carries a components entry (the list may be
empty), and so on recursively. -/
inductive HasComps : TreeNode → Prop where
  | mk : ∀ (f : InvComp) (l : List TreeNode),
      (∀ n ∈ l, HasComps n) → HasComps (.mk f (some l))

/-- The children ids of the chassis node of a decode result, for stating
concrete facts about assembled trees. -/
def chassisChildIds (e : Except InvErr InvResult) : List Nat :=
  match e with
  | .ok ⟨some (.mk _ (some l))⟩ => l.map (fun n => n.flat.id)
  | _ => []

/-! Helper lemmas about the Python string model. -/

lemma skDropWhile_append (p : Char → Bool) (a b : Str) :
    (a ++ b).dropWhile p =
      if a.dropWhile p = [] then b.dropWhile p else a.dropWhile p ++ b := by
  induction a with
  | nil => simp
  | cons c cs ih =>
    by_cases hc : p c
    · simpa [List.dropWhile_cons, hc] using ih
    · simp [List.dropWhile_cons, hc]

lemma skDropWhile_idem (p : Char → Bool) (l : Str) :
    (l.dropWhile p).dropWhile p = l.dropWhile p := by
  induction l with
  | nil => simp
  | cons c cs ih =>
    by_cases hc : p c <;> simp [List.dropWhile_cons, hc, ih]

lemma skDropWhile_eq_nil_iff (p : Char → Bool) (l : Str) :
    l.dropWhile p = [] ↔ ∀ c ∈ l, p c := by
  induction l with
  | nil => simp
  | cons c cs ih =>
    by_cases hc : p c <;> simp [List.dropWhile_cons, hc, ih]

lemma skMem_dropWhile (p : Char → Bool) (l : Str) (x : Char)
    (h : x ∈ l.dropWhile p) : x ∈ l := by
  induction l with
  | nil => simp at h
  | cons c cs ih =>
    by_cases hc : p c
    · simp only [List.dropWhile_cons, hc, if_pos] at h
      exact List.mem_cons_of_mem c (ih (by simp_all))
    · rw [List.dropWhile_cons, if_neg (by simp [hc])] at h
      exact h

lemma skMem_stripLeft {l : Str} {x : Char} (h : x ∈ stripLeft l) : x ∈ l :=
  skMem_dropWhile pyWS l x h

lemma skMem_stripRight {l : Str} {x : Char} (h : x ∈ stripRight l) : x ∈ l := by
  unfold stripRight stripLeft at h
  rw [List.mem_reverse] at h
  exact List.mem_reverse.mp (skMem_dropWhile pyWS l.reverse x h)

lemma skMem_pyStrip {l : Str} {x : Char} (h : x ∈ pyStrip l) : x ∈ l :=
  skMem_stripLeft (skMem_stripRight (l := stripLeft l) h)

lemma skStripLeft_cons_of_not_ws {c : Char} (cs : Str) (h : pyWS c = false) :
    stripLeft (c :: cs) = c :: cs := by
  simp [stripLeft, List.dropWhile_cons, h]

lemma skStripRight_append (a b : Str) :
    stripRight (a ++ b) =
      if stripRight b = [] then stripRight a else a ++ stripRight b := by
  unfold stripRight stripLeft
  rw [List.reverse_append, skDropWhile_append]
  by_cases hb : b.reverse.dropWhile pyWS = []
  · simp [hb]
  · have hb' : ¬ (b.reverse.dropWhile pyWS).reverse = [] := by
      simpa using hb
    simp [hb, hb']

lemma skStripRight_eq_nil_iff (l : Str) :
    stripRight l = [] ↔ ∀ c ∈ l, pyWS c := by
  unfold stripRight stripLeft
  rw [List.reverse_eq_nil_iff, skDropWhile_eq_nil_iff]
  constructor
  · intro h c hc
    exact h c (List.mem_reverse.mpr hc)
  · intro h c hc
    exact h c (List.mem_reverse.mp hc)

lemma skStripRight_idem (l : Str) : stripRight (stripRight l) = stripRight l := by
  unfold stripRight stripLeft
  simp [skDropWhile_idem]

lemma skStripLeft_stripRight_of_head {c : Char} {cs : Str} (h : pyWS c = false) :
    stripLeft (stripRight (c :: cs)) = stripRight (c :: cs) := by
  have : stripRight (c :: cs) = stripRight ([c] ++ cs) := by simp
  rw [this, skStripRight_append]
  by_cases hcs : stripRight cs = []
  · rw [if_pos hcs]
    have h1 : stripRight [c] = [c] := by
      simp [stripRight, stripLeft, List.dropWhile_cons, h]
    rw [h1, skStripLeft_cons_of_not_ws _ h]
  · rw [if_neg hcs]
    exact skStripLeft_cons_of_not_ws _ h

lemma skPyStrip_all_ws {l : Str} (h : ∀ c ∈ l, pyWS c) : pyStrip l = [] := by
  unfold pyStrip
  have h1 : stripLeft l = [] := by
    unfold stripLeft
    rw [skDropWhile_eq_nil_iff]
    exact h
  rw [h1]
  rfl

lemma skSplitNl_of_no_nl (l : Str) (h : ('\n') ∉ l) : splitNl l = [l] := by
  induction l with
  | nil => rfl
  | cons c cs ih =>
    have hc : c ≠ '\n' := by
      intro hc
      exact h (hc ▸ List.mem_cons_self c cs)
    have hcs : ('\n') ∉ cs := fun hm => h (List.mem_cons_of_mem c hm)
    simp [splitNl, hc, ih hcs]

lemma skIsPrefixOf_append (pat a b : Str) (h : List.isPrefixOf pat a = true) :
    List.isPrefixOf pat (a ++ b) = true := by
  induction pat generalizing a with
  | nil => simp [List.isPrefixOf]
  | cons p ps ih =>
    cases a with
    | nil => simp [List.isPrefixOf] at h
    | cons c cs =>
      simp only [List.cons_append, List.isPrefixOf, Bool.and_eq_true] at h ⊢
      exact ⟨h.1, ih cs h.2⟩

lemma skContainsSub_append_left (pat a b : Str) (h : containsSub pat a = true) :
    containsSub pat (a ++ b) = true := by
  induction a with
  | nil =>
    have hpat : pat = [] := by
      cases pat with
      | nil => rfl
      | cons p ps => simp [containsSub, atFront, List.isPrefixOf] at h
    subst hpat
    cases b with
    | nil => simpa using h
    | cons c cs => simp [containsSub, atFront, List.isPrefixOf]
  | cons c cs ih =>
    simp only [containsSub, Bool.or_eq_true] at h
    rcases h with h | h
    · have h2 : atFront pat (c :: (cs ++ b)) = true := by
        have h3 := skIsPrefixOf_append pat (c :: cs) b h
        simpa [atFront] using h3
      simp [List.cons_append, containsSub, h2]
    · have h2 := ih h
      simp [List.cons_append, containsSub, h2]

lemma skStripLeft_idem (l : Str) : stripLeft (stripLeft l) = stripLeft l :=
  skDropWhile_idem pyWS l

lemma skStripRight_singleton (c : Char) :
    stripRight [c] = if pyWS c then [] else [c] := by
  unfold stripRight stripLeft
  by_cases h : pyWS c <;> simp [h]

lemma skStripRight_cons (c : Char) (cs : Str) :
    stripRight (c :: cs) =
      if stripRight cs = [] then (if pyWS c then [] else [c])
      else c :: stripRight cs := by
  have h1 : c :: cs = [c] ++ cs := rfl
  rw [h1, skStripRight_append, skStripRight_singleton]
  by_cases h2 : stripRight cs = [] <;> simp [h2]

lemma skStripLeft_cons_ws {c : Char} (cs : Str) (h : pyWS c = true) :
    stripLeft (c :: cs) = stripLeft cs := by
  simp [stripLeft, List.dropWhile_cons, h]

lemma skStripLR_comm (x : Str) :
    stripLeft (stripRight x) = stripRight (stripLeft x) := by
  induction x with
  | nil => rfl
  | cons c cs ih =>
    by_cases hc : pyWS c
    · rw [skStripRight_cons, skStripLeft_cons_ws cs hc]
      by_cases h2 : stripRight cs = []
      · rw [if_pos h2, if_pos hc, ← ih, h2]
      · rw [if_neg h2, skStripLeft_cons_ws _ hc, ih]
    · rw [skStripLeft_cons_of_not_ws cs (by simpa using hc), skStripRight_cons]
      by_cases h2 : stripRight cs = []
      · rw [if_pos h2, if_neg (by simpa using hc)]
        exact skStripLeft_cons_of_not_ws [] (by simpa using hc)
      · rw [if_neg h2]
        exact skStripLeft_cons_of_not_ws _ (by simpa using hc)

lemma skPyStrip_idem (x : Str) : pyStrip (pyStrip x) = pyStrip x := by
  unfold pyStrip
  rw [skStripLR_comm (stripLeft x), skStripLeft_idem, skStripRight_idem]

lemma skPyStrip_cons_ws {c : Char} (w : Str) (h : pyWS c = true) :
    pyStrip (c :: w) = pyStrip w := by
  unfold pyStrip
  rw [skStripLeft_cons_ws w h]

lemma skPyStrip_stripRight (x : Str) : pyStrip (stripRight x) = pyStrip x := by
  unfold pyStrip
  rw [skStripLR_comm x, skStripRight_idem]

lemma skNormEmpty_pyStrip (x : Str) : normEmpty (pyStrip x) = normEmpty x := by
  unfold normEmpty
  rw [skPyStrip_idem]

lemma skConvertToInt_pyStrip (x : Str) :
    convertToInt (pyStrip x) = convertToInt x := by
  unfold convertToInt
  rw [skNormEmpty_pyStrip]

lemma skBeforeColon_append (a b : Str) (h : (':') ∈ a) :
    beforeColon (a ++ b) = beforeColon a := by
  induction a with
  | nil => simp at h
  | cons c cs ih =>
    by_cases hc : c = ':'
    · simp [beforeColon, hc]
    · have h2 : (':') ∈ cs := by
        rcases List.mem_cons.mp h with h3 | h3
        · exact absurd h3.symm hc
        · exact h3
      simp [beforeColon, hc, ih h2]

lemma skAfterColon_append (a b : Str) (h : (':') ∈ a) :
    afterColon (a ++ b) = afterColon a ++ b := by
  induction a with
  | nil => simp at h
  | cons c cs ih =>
    by_cases hc : c = ':'
    · simp [afterColon, hc]
    · have h2 : (':') ∈ cs := by
        rcases List.mem_cons.mp h with h3 | h3
        · exact absurd h3.symm hc
        · exact h3
      simp [afterColon, hc, ih h2]

lemma skCharOfNat_toNat_small : ∀ i : Fin 128, (Char.ofNat i.val).toNat = i.val := by
  decide

lemma skToNat_lcChar (c : Char) :
    (lcChar c).toNat =
      if 65 ≤ c.toNat && c.toNat ≤ 90 then c.toNat + 32 else c.toNat := by
  unfold lcChar
  by_cases h : 65 ≤ c.toNat && c.toNat ≤ 90
  · rw [if_pos h, if_pos h]
    have h90 : c.toNat ≤ 90 := by
      have := h
      simp only [Bool.and_eq_true, decide_eq_true_eq] at this
      exact this.2
    exact skCharOfNat_toNat_small ⟨c.toNat + 32, by omega⟩
  · rw [if_neg h, if_neg h]

lemma skNotStarted_not_int (x : Str)
    (h : lowerStr (pyStrip x) = ("not started").data) : convertToInt x = none := by
  have hne : pyStrip x ≠ [] := by
    intro h0
    rw [h0] at h
    simp [lowerStr] at h
  obtain ⟨c, rest, hcr⟩ : ∃ c rest, pyStrip x = c :: rest := by
    cases hx : pyStrip x with
    | nil => exact absurd hx hne
    | cons c rest => exact ⟨c, rest, rfl⟩
  have hlc : lcChar c = 'n' := by
    rw [hcr] at h
    simpa [lowerStr] using congrArg (fun l => l.head?) h
  have hc : c.toNat = 110 ∨ c.toNat = 78 := by
    have h1 := skToNat_lcChar c
    rw [hlc] at h1
    by_cases h2 : 65 ≤ c.toNat && c.toNat ≤ 90
    · rw [if_pos h2] at h1
      right
      have : (110 : Nat) = c.toNat + 32 := by simpa using h1.symm
      omega
    · rw [if_neg h2] at h1
      left
      simpa using h1.symm
  have hna : lowerStr (pyStrip x) ≠ ("n/a").data := by
    rw [h]
    decide
  have hdef : lowerStr (pyStrip x) ≠ ("default").data := by
    rw [h]
    decide
  have hnorm : normEmpty x = some (pyStrip x) := by
    unfold normEmpty
    rw [if_neg hne, if_neg hna, if_neg hdef]
  unfold convertToInt
  rw [hnorm]
  show pyInt? (pyStrip x) = none
  have hplus : c ≠ '+' := by
    intro h3
    rw [h3] at hc
    revert hc
    decide
  have hminus : c ≠ '-' := by
    intro h3
    rw [h3] at hc
    revert hc
    decide
  have hdig : isDig c = false := by
    unfold isDig
    rcases hc with h3 | h3 <;> simp [h3]
  have hrw : pyStrip (pyStrip x) = c :: rest := by rw [skPyStrip_idem, hcr]
  simp only [pyInt?, hrw]
  rw [if_neg hplus, if_neg hminus]
  simp only [pyUnsigned]
  rw [hdig]
  simp

lemma skParse_rollback_single (out : String) (h : ('\n') ∉ out.data) :
    parse_rollback_status out =
      rollbackLine { active := false, timeout := none } (pyStrip out.data) := by
  unfold parse_rollback_status
  rw [skSplitNl_of_no_nl]
  · rfl
  · intro hm
    exact h (skMem_pyStrip hm)

/-- C3: the rollback status decoder sends the line value not started to
inactive with absent timeout, sends any value that coerces to an integer
to active with that integer, and sends any value that fails integer
coercion to inactive with absent timeout, identically to not started.
The not-started comparison in the source is case-insensitive, but since no
case variant of the words not started coerces to an integer, the decoder
realises exactly the claimed input-output map. -/
theorem rollback_status_value_cases (v : String) (hnl : ('\n') ∉ v.data) :
    parse_rollback_status (("rollback timeout : ") ++ v) =
      (match convertToInt v.data with
       | some t => { active := true, timeout := some t }
       | none => { active := false, timeout := none }) ∧
    parse_rollback_status (("rollback timeout : not started")) =
      { active := false, timeout := none } := by
  constructor
  · have hdata : (("rollback timeout : ") ++ v).data =
        ("rollback timeout : ").data ++ v.data := String.data_append _ _
    have hnl2 : ('\n') ∉ (("rollback timeout : ") ++ v).data := by
      rw [hdata]
      intro hm
      rcases List.mem_append.mp hm with hm | hm
      · revert hm
        decide
      · exact hnl hm
    rw [skParse_rollback_single _ hnl2, hdata]
    have hfx : ("rollback timeout : ").data =
        'r' :: ("ollback timeout : ").data := rfl
    have hsl : stripLeft (("rollback timeout : ").data ++ v.data) =
        ("rollback timeout : ").data ++ v.data := by
      rw [hfx, List.cons_append]
      exact skStripLeft_cons_of_not_ws _ (by decide)
    by_cases hz : stripRight v.data = []
    · have hps : pyStrip (("rollback timeout : ").data ++ v.data) =
          ("rollback timeout :").data := by
        unfold pyStrip
        rw [hsl, skStripRight_append, if_pos hz]
        decide
      have hc0 : convertToInt v.data = none := by
        have hall : ∀ c ∈ v.data, pyWS c := (skStripRight_eq_nil_iff v.data).mp hz
        have hstrip : pyStrip v.data = [] := skPyStrip_all_ws hall
        unfold convertToInt normEmpty
        rw [if_pos hstrip]
      rw [hps, hc0]
      decide
    · have hps : pyStrip (("rollback timeout : ").data ++ v.data) =
          ("rollback timeout : ").data ++ stripRight v.data := by
        unfold pyStrip
        rw [hsl, skStripRight_append, if_neg hz]
      rw [hps]
      have hlw : pyStrip (("rollback timeout : ").data ++ stripRight v.data) =
          ("rollback timeout : ").data ++ stripRight v.data := by
        unfold pyStrip
        rw [hfx, List.cons_append,
          skStripLeft_cons_of_not_ws _ (by decide), ← List.cons_append, ← hfx,
          skStripRight_append, skStripRight_idem, if_neg hz]
      unfold rollbackLine
      simp only [hlw]
      rw [if_neg (by simp)]
      rw [if_neg (by simp)]
      rw [if_pos (skContainsSub_append_left _ _ _ (by decide))]
      rw [skBeforeColon_append _ _ (by decide), skAfterColon_append _ _ (by decide)]
      rw [if_pos (by decide)]
      have hac : afterColon (['r', 'o', 'l', 'l', 'b', 'a', 'c', 'k', ' ',
          't', 'i', 'm', 'e', 'o', 'u', 't', ' ', ':', ' ']) = [' '] := by decide
      rw [hac, List.singleton_append]
      rw [skPyStrip_cons_ws _ (by decide), skPyStrip_stripRight]
      split
      · next hns => rw [skNotStarted_not_int v.data hns]
      · next hns => rw [skConvertToInt_pyStrip]
  · decide

/-- Witness for C3: instantiating the rollback decode theorem at the
value 9000 yields the active state with timeout 9000. -/
theorem rollback_status_value_cases_witness :
    parse_rollback_status (("rollback timeout : ") ++ ("9000")) =
      { active := true, timeout := some 9000 } := by
  have h := (rollback_status_value_cases ("9000") (by decide)).1
  rw [h]
  decide

/-! Lemmas about decimal digit strings and the acknowledgement matcher. -/

lemma skDigitChar_isDig (d : Nat) (h : d < 10) :
    isDig (Char.ofNat (48 + d)) = true := by
  have h1 := skCharOfNat_toNat_small ⟨48 + d, by omega⟩
  unfold isDig
  simp only [h1, Bool.and_eq_true, decide_eq_true_eq]
  omega

lemma skNatDigitsAux_digits :
    ∀ (fuel n : Nat), ∀ c ∈ natDigitsAux fuel n, isDig c = true := by
  intro fuel
  induction fuel with
  | zero =>
    intro n c hc
    simp [natDigitsAux] at hc
  | succ f ih =>
    intro n c hc
    unfold natDigitsAux at hc
    by_cases h : n < 10
    · rw [if_pos h] at hc
      simp only [List.mem_singleton] at hc
      subst hc
      exact skDigitChar_isDig n h
    · rw [if_neg h] at hc
      rcases List.mem_append.mp hc with hc | hc
      · exact ih _ c hc
      · simp only [List.mem_singleton] at hc
        subst hc
        exact skDigitChar_isDig _ (Nat.mod_lt _ (by omega))

lemma skNatDigits_digits (n : Nat) : ∀ c ∈ natDigits n, isDig c = true :=
  skNatDigitsAux_digits _ n

lemma skNatDigits_ne_nil (n : Nat) : natDigits n ≠ [] := by
  unfold natDigits natDigitsAux
  by_cases h : n < 10
  · rw [if_pos h]
    exact List.cons_ne_nil _ _
  · rw [if_neg h]
    simp

lemma skIsDig_not_ws {c : Char} (h : isDig c = true) : pyWS c = false := by
  unfold isDig at h
  simp only [Bool.and_eq_true, decide_eq_true_eq] at h
  unfold pyWS
  simp only [Bool.or_eq_false_iff, decide_eq_false_iff_not]
  omega

lemma skIsDig_lc {c : Char} (h : isDig c = true) : lcChar c = c := by
  unfold isDig at h
  simp only [Bool.and_eq_true, decide_eq_true_eq] at h
  unfold lcChar
  rw [if_neg]
  simp only [Bool.and_eq_true, decide_eq_true_eq, not_and]
  omega

lemma skIsDig_lc_ne_s {c : Char} (h : isDig c = true) : lcChar c ≠ 's' := by
  rw [skIsDig_lc h]
  intro h1
  subst h1
  revert h
  decide

lemma skLitCI_append (p a b : Str) (h : p.length ≤ a.length) :
    litCI p (a ++ b) = (litCI p a).map (fun r => r ++ b) := by
  induction p generalizing a with
  | nil => simp [litCI]
  | cons x xs ih =>
    cases a with
    | nil => simp at h
    | cons c cs =>
      simp only [List.cons_append, litCI]
      by_cases hx : lcChar x = lcChar c
      · rw [if_pos hx, if_pos hx]
        exact ih cs (by simpa using h)
      · rw [if_neg hx, if_neg hx]
        rfl

lemma skLitCI_digits_none : ∀ (a b : Str), (∀ c ∈ a, isDig c = true) →
    (∀ c ∈ b, isDig c = true) → List.isPrefixOf a b = false →
    litCI a b = none := by
  intro a
  induction a with
  | nil =>
    intro b _ _ h
    simp [List.isPrefixOf] at h
  | cons x xs ih =>
    intro b ha hb h
    cases b with
    | nil => rfl
    | cons c cs =>
      have hx : lcChar x = x := skIsDig_lc (ha x (List.mem_cons_self x xs))
      have hc : lcChar c = c := skIsDig_lc (hb c (List.mem_cons_self c cs))
      simp only [litCI, hx, hc]
      by_cases hxc : x = c
      · rw [if_pos hxc]
        have h2 : List.isPrefixOf xs cs = false := by
          subst hxc
          simpa [List.isPrefixOf] using h
        exact ih cs (fun d hd => ha d (List.mem_cons_of_mem x hd))
          (fun d hd => hb d (List.mem_cons_of_mem c hd)) h2
      · rw [if_neg hxc]

lemma skMatchAckAt_nil (subj ds : Str) : matchAckAt subj ds [] = false := by
  have h1 : litCI (("set done:").data) [] = none := rfl
  simp [matchAckAt, h1]

lemma skMatchAckAt_cons_false (subj ds : Str) (c : Char) (cs : Str)
    (h : lcChar c ≠ 's') : matchAckAt subj ds (c :: cs) = false := by
  have h1 : litCI (("set done:").data) (c :: cs) = none := by
    rw [show (("set done:").data) = 's' :: ("et done:").data from rfl]
    simp only [litCI]
    rw [if_neg]
    rw [show lcChar 's' = 's' from by decide]
    exact fun h2 => h h2.symm
  simp [matchAckAt, h1]

lemma skSearchAck_false (subj ds : Str) :
    ∀ l : Str, (∀ c ∈ l, lcChar c ≠ 's') →
      searchB (matchAckAt subj ds) l = false := by
  intro l
  induction l with
  | nil =>
    intro _
    simpa [searchB] using skMatchAckAt_nil subj ds
  | cons c cs ih =>
    intro hall
    simp only [searchB, Bool.or_eq_false_iff]
    constructor
    · exact skMatchAckAt_cons_false subj ds c cs (hall c (List.mem_cons_self c cs))
    · exact ih (fun d hd => hall d (List.mem_cons_of_mem c hd))

lemma skSearchB_cons (m : Str → Bool) (c : Char) (cs : Str) :
    searchB m (c :: cs) = (m (c :: cs) || searchB m cs) := rfl

lemma skWs1_space (rest : Str) : ws1 (' ' :: rest) = some (rest.dropWhile pyWS) := by
  simp only [ws1]
  rw [if_pos (by decide)]

lemma skDropWhile_cons_not (p : Char → Bool) {c : Char} (h : p c = false)
    (l : Str) : List.dropWhile p (c :: l) = c :: l := by
  simp [List.dropWhile_cons, h]

lemma skAckIpAt0 (s t : Nat)
    (h : List.isPrefixOf (natDigits s) (natDigits t) = false) :
    matchAckAt (("ip").data) (natDigits s)
      ('S' :: ((("et done: ip ").data) ++ natDigits t)) = false := by
  obtain ⟨d, ds, hD⟩ : ∃ d ds, natDigits t = d :: ds := by
    cases hD : natDigits t with
    | nil => exact absurd hD (skNatDigits_ne_nil t)
    | cons d ds => exact ⟨d, ds, rfl⟩
  unfold matchAckAt
  have h1 : litCI (("set done:").data)
      ('S' :: ((("et done: ip ").data) ++ natDigits t)) =
      some ((" ip ").data ++ natDigits t) := by
    rw [show 'S' :: ((("et done: ip ").data) ++ natDigits t) =
      ("Set done:").data ++ ((" ip ").data ++ natDigits t) from rfl]
    rw [skLitCI_append _ _ _ (by decide)]
    rw [show litCI (("set done:").data) (("Set done:").data) = some [] from by decide]
    simp
  rw [h1, Option.some_bind]
  have h2 : ws1 ((" ip ").data ++ natDigits t) =
      some (("ip ").data ++ natDigits t) := by
    rw [show (" ip ").data ++ natDigits t =
      ' ' :: (("ip ").data ++ natDigits t) from rfl]
    rw [skWs1_space]
    rw [show ("ip ").data ++ natDigits t =
      'i' :: (("p ").data ++ natDigits t) from rfl]
    rw [skDropWhile_cons_not pyWS (by decide)]
  rw [h2, Option.some_bind]
  have h3 : litCI (("ip").data) (("ip ").data ++ natDigits t) =
      some (' ' :: natDigits t) := by
    rw [skLitCI_append _ _ _ (by decide)]
    rw [show litCI (("ip").data) (("ip ").data) = some [' '] from by decide]
    simp
  rw [h3, Option.some_bind]
  have h4 : ws1 (' ' :: natDigits t) = some (natDigits t) := by
    rw [skWs1_space, hD,
      skDropWhile_cons_not pyWS (skIsDig_not_ws (skNatDigits_digits t d
        (hD ▸ List.mem_cons_self d ds)))]
  rw [h4, Option.some_bind]
  rw [skLitCI_digits_none _ _ (skNatDigits_digits s) (skNatDigits_digits t) h]
  rfl

lemma skAckRouteAt0 (s t : Nat)
    (h : List.isPrefixOf (natDigits s) (natDigits t) = false) :
    matchAckAt (("route").data) (natDigits s)
      ('S' :: ((("et done: route ").data) ++ natDigits t)) = false := by
  obtain ⟨d, ds, hD⟩ : ∃ d ds, natDigits t = d :: ds := by
    cases hD : natDigits t with
    | nil => exact absurd hD (skNatDigits_ne_nil t)
    | cons d ds => exact ⟨d, ds, rfl⟩
  unfold matchAckAt
  have h1 : litCI (("set done:").data)
      ('S' :: ((("et done: route ").data) ++ natDigits t)) =
      some ((" route ").data ++ natDigits t) := by
    rw [show 'S' :: ((("et done: route ").data) ++ natDigits t) =
      ("Set done:").data ++ ((" route ").data ++ natDigits t) from rfl]
    rw [skLitCI_append _ _ _ (by decide)]
    rw [show litCI (("set done:").data) (("Set done:").data) = some [] from by decide]
    simp
  rw [h1, Option.some_bind]
  have h2 : ws1 ((" route ").data ++ natDigits t) =
      some (("route ").data ++ natDigits t) := by
    rw [show (" route ").data ++ natDigits t =
      ' ' :: (("route ").data ++ natDigits t) from rfl]
    rw [skWs1_space]
    rw [show ("route ").data ++ natDigits t =
      'r' :: (("oute ").data ++ natDigits t) from rfl]
    rw [skDropWhile_cons_not pyWS (by decide)]
  rw [h2, Option.some_bind]
  have h3 : litCI (("route").data) (("route ").data ++ natDigits t) =
      some (' ' :: natDigits t) := by
    rw [skLitCI_append _ _ _ (by decide)]
    rw [show litCI (("route").data) (("route ").data) = some [' '] from by decide]
    simp
  rw [h3, Option.some_bind]
  have h4 : ws1 (' ' :: natDigits t) = some (natDigits t) := by
    rw [skWs1_space, hD,
      skDropWhile_cons_not pyWS (skIsDig_not_ws (skNatDigits_digits t d
        (hD ▸ List.mem_cons_self d ds)))]
  rw [h4, Option.some_bind]
  rw [skLitCI_digits_none _ _ (skNatDigits_digits s) (skNatDigits_digits t) h]
  rfl

/-- C2 counterexample: the validators accept an acknowledgement for a
different slot when the decimal digits of the acknowledged slot extend
those of the requested slot, because the search pattern has no boundary
after the slot digits.  Here the device acknowledges slot 35 while slot 3
was requested, and both validators report success. -/
theorem ack_validator_accepts_extended_slot :
    validate_set_ip_response (("Set done: ip 35")) 3 = true ∧
    validate_set_route_response (("Set done: route 35")) 3 = true ∧
    (35 : Nat) ≠ 3 := by
  refine ⟨by decide, by decide, by decide⟩

/-- C2 amended: for every requested slot s and every canonical
acknowledgement naming a slot t whose decimal digits do not begin with the
digits of s, the set-ip and set-route validators classify the response as
failure.  In particular the acknowledgement Set done: ip 5 with requested
slot 3 is rejected.  (When the digits of t extend those of s, e.g. t = 35
with s = 3, the validators wrongly accept, as the counterexample shows.) -/
theorem ack_validators_reject_nonprefix_slot (s t : Nat)
    (h : List.isPrefixOf (natDigits s) (natDigits t) = false) :
    validate_set_ip_response (("Set done: ip ") ++ natStr t) s = false ∧
    validate_set_route_response (("Set done: route ") ++ natStr t) s = false := by
  constructor
  · unfold validate_set_ip_response
    have hT : (("Set done: ip ") ++ natStr t).data =
        'S' :: ((("et done: ip ").data) ++ natDigits t) := by
      rw [String.data_append]
      rfl
    rw [hT, skSearchB_cons, skAckIpAt0 s t h, Bool.false_or]
    apply skSearchAck_false
    intro c hc
    rcases List.mem_append.mp hc with hc | hc
    · have hfix : ∀ c ∈ (("et done: ip ").data), lcChar c ≠ 's' := by decide
      exact hfix c hc
    · exact skIsDig_lc_ne_s (skNatDigits_digits t c hc)
  · unfold validate_set_route_response
    have hT : (("Set done: route ") ++ natStr t).data =
        'S' :: ((("et done: route ").data) ++ natDigits t) := by
      rw [String.data_append]
      rfl
    rw [hT, skSearchB_cons, skAckRouteAt0 s t h, Bool.false_or]
    apply skSearchAck_false
    intro c hc
    rcases List.mem_append.mp hc with hc | hc
    · have hfix : ∀ c ∈ (("et done: route ").data), lcChar c ≠ 's' := by decide
      exact hfix c hc
    · exact skIsDig_lc_ne_s (skNatDigits_digits t c hc)

/-- Witness for the amended C2 theorem at the spec example: requested
slot 3, acknowledged slot 5 — both validators reject. -/
theorem ack_validators_reject_nonprefix_slot_witness :
    validate_set_ip_response (("Set done: ip ") ++ natStr 5) 3 = false ∧
    validate_set_route_response (("Set done: route ") ++ natStr 5) 3 = false :=
  ack_validators_reject_nonprefix_slot 3 5 (by decide)

/-! Lemmas about the show sw table decoder. -/

lemma skSwFoldChar : ∀ (lines : List Str) (st : SwInfo),
    ((lines.foldl swUpd st).running =
      (match lastClaim (fun rb => rb.2) (lines.filterMap swRow) with
       | some rb => some rb.1
       | none => st.running)) ∧
    ((lines.foldl swUpd st).standby =
      (match lastClaim (fun rb => !rb.2) (lines.filterMap swRow) with
       | some rb => some rb.1
       | none => st.standby)) := by
  intro lines
  induction lines with
  | nil => exact fun st => ⟨rfl, rfl⟩
  | cons l ls ih =>
    intro st
    rw [List.foldl_cons, List.filterMap_cons]
    cases hr : swRow l with
    | none =>
      have hupd : swUpd st l = st := by
        unfold swUpd
        rw [hr]
      rw [hupd]
      exact ih st
    | some rb =>
      obtain ⟨b, run⟩ := rb
      cases run with
      | true =>
        have hupd : swUpd st l = { st with running := some b } := by
          unfold swUpd
          rw [hr]
        rw [hupd]
        constructor
        · rw [(ih _).1]
          simp only [lastClaim]
          cases lastClaim (fun rb => rb.2) (ls.filterMap swRow) <;> simp
        · rw [(ih _).2]
          simp only [lastClaim]
          cases lastClaim (fun rb => !rb.2) (ls.filterMap swRow) <;> simp
      | false =>
        have hupd : swUpd st l = { st with standby := some b } := by
          unfold swUpd
          rw [hr]
        rw [hupd]
        constructor
        · rw [(ih _).1]
          simp only [lastClaim]
          cases lastClaim (fun rb => rb.2) (ls.filterMap swRow) <;> simp
        · rw [(ih _).2]
          simp only [lastClaim]
          cases lastClaim (fun rb => !rb.2) (ls.filterMap swRow) <;> simp

/-- C4 counterexample: when two rows both claim running yes, the decoder
keeps the LAST such row, not the first.  With rows for banks 1 and 2 both
marked running, the running group holds bank 2 and the bank-1 row is
overwritten. -/
theorem sw_first_running_claim_loses :
    (parse_sw_info (("1 v1 yes no exists\n2 v2 yes no missing"))).running =
      some { version := ("v2"), bank := 2, scheduled_to_run := false,
             startup_config := false } ∧
    (parse_sw_info (("1 v1 yes no exists\n2 v2 yes no missing"))).running ≠
      some { version := ("v1"), bank := 1, scheduled_to_run := false,
             startup_config := true } := by
  exact ⟨by decide, by decide⟩

/-- C4 amended: rows are partitioned into the running and standby groups
keyed by the running flag rather than by bank number; when zero rows claim
running yes the running group is absent, and when more than one row claims
it the LAST such row in input order wins (each later claim overwrites the
earlier one); symmetrically the standby group holds the last row with
running no. -/
theorem sw_partition_last_claim_wins (output : String) :
    (parse_sw_info output).running =
      (lastClaim (fun rb => rb.2) (swRows output)).map (fun rb => rb.1) ∧
    (parse_sw_info output).standby =
      (lastClaim (fun rb => !rb.2) (swRows output)).map (fun rb => rb.1) := by
  unfold parse_sw_info swRows
  obtain ⟨h1, h2⟩ := skSwFoldChar (splitNl output.data) {}
  rw [h1, h2]
  constructor
  · cases lastClaim (fun rb => rb.2) ((splitNl output.data).filterMap swRow) <;> rfl
  · cases lastClaim (fun rb => !rb.2) ((splitNl output.data).filterMap swRow) <;> rfl

/-! Lemmas and theorems for the IP reconciliation and the two show ip
decoders. -/

/-- C1: when the current state read for the item slot already equals every
field the item specifies, the reconciliation returns changed false, the
only transport call is the single read command, and no mutating (set)
command is sent. -/
theorem configure_ip_idempotent_no_mutation {σ : Type}
    (step : σ → String → String × σ) (s0 : σ) (it : IpItem) (r : IpRec)
    (hcur : lookupD it.slot
      (parse_ip_config (step s0 (("show ip ") ++ natStr it.slot)).1) = some r)
    (hip : r.ip = some it.ip_address)
    (hpl : r.prefix_len = some it.prefix_len)
    (hvl : r.vlan = some it.vlan) :
    (configure_ip step s0 it).1.changed = false ∧
    (configure_ip step s0 it).2.1 = [("show ip ") ++ natStr it.slot] ∧
    (configure_ip step s0 it).2.1.filter isMutatingCmd = [] := by
  have hmut : isMutatingCmd (("show ip ") ++ natStr it.slot) = false := by
    unfold isMutatingCmd
    rw [String.data_append]
    rw [show ("show ip ").data ++ (natStr it.slot).data =
      's' :: 'h' :: (("ow ip ").data ++ (natStr it.slot).data) from rfl]
    simp [List.isPrefixOf]
  simp only [configure_ip]
  rw [hcur]
  simp only [hip, hpl, hvl, IpRec.truthy, Option.isSome_some, Bool.true_or,
    Bool.or_true, beq_self_eq_true, Bool.and_self, Bool.true_and, if_true]
  refine ⟨trivial, trivial, ?_⟩
  simp [List.filter, hmut]

/-- Witness for C1: a transport whose show ip 3 response already matches
the desired item yields changed false and a single read command. -/
theorem configure_ip_idempotent_witness :
    (configure_ip
      (fun (_ : Unit) c =>
        (if c = ("show ip 3")
         then ("ip 3 ip-addr : static 192.168.1.100\nip 3 prefix-len : 24\nip 3 vlan : 0")
         else (""), ()))
      ()
      { slot := 3, ip_address := ("192.168.1.100"), prefix_len := 24,
        vlan := 0 }).1.changed = false ∧
    (configure_ip
      (fun (_ : Unit) c =>
        (if c = ("show ip 3")
         then ("ip 3 ip-addr : static 192.168.1.100\nip 3 prefix-len : 24\nip 3 vlan : 0")
         else (""), ()))
      ()
      { slot := 3, ip_address := ("192.168.1.100"), prefix_len := 24,
        vlan := 0 }).2.1.filter isMutatingCmd = [] := by
  have h := configure_ip_idempotent_no_mutation
    (fun (_ : Unit) c =>
      (if c = ("show ip 3")
       then ("ip 3 ip-addr : static 192.168.1.100\nip 3 prefix-len : 24\nip 3 vlan : 0")
       else (""), ()))
    ()
    { slot := 3, ip_address := ("192.168.1.100"), prefix_len := 24, vlan := 0 }
    { ip := some ("192.168.1.100"), prefix_len := some 24, vlan := some 0,
      default_gateway := none }
    (by decide) rfl rfl rfl
  exact ⟨h.1, h.2.2⟩

lemma skSetD_keys_present (k : Nat) (v : α) (d : List (Nat × α))
    (h : (d.find? (fun p => p.1 == k)).isSome = true) :
    (setD k v d).map (fun p => p.1) = d.map (fun p => p.1) := by
  unfold setD
  rw [if_pos h, List.map_map]
  apply List.map_congr_left
  intro p _
  by_cases hp : p.1 == k
  · have hpk : p.1 = k := by simpa using hp
    simp [Function.comp, hp, hpk]
  · simp [Function.comp, hp]

lemma skSetD_keys_absent (k : Nat) (v : α) (d : List (Nat × α))
    (h : (d.find? (fun p => p.1 == k)).isSome = false) :
    (setD k v d).map (fun p => p.1) = d.map (fun p => p.1) ++ [k] := by
  unfold setD
  rw [if_neg (by simp [h]), List.map_append]
  rfl

lemma skUpdD_keys (k : Nat) (f : α → α) (d : List (Nat × α)) :
    (updD k f d).map (fun p => p.1) = d.map (fun p => p.1) := by
  unfold updD
  rw [List.map_map]
  apply List.map_congr_left
  intro p _
  by_cases hp : p.1 == k <;> simp [Function.comp, hp]

lemma skSetD_nodup (k : Nat) (v : α) (d : List (Nat × α))
    (h : (d.map (fun p => p.1)).Nodup) :
    ((setD k v d).map (fun p => p.1)).Nodup := by
  cases hf : (d.find? (fun p => p.1 == k)).isSome with
  | true =>
    rw [skSetD_keys_present k v d hf]
    exact h
  | false =>
    rw [skSetD_keys_absent k v d hf]
    have hk : k ∉ d.map (fun p => p.1) := by
      intro hm
      obtain ⟨p, hp, hpk⟩ := List.mem_map.mp hm
      have h2 : ∃ x ∈ d, (fun p => p.1 == k) x = true :=
        ⟨p, hp, by simp [hpk]⟩
      rw [← List.find?_isSome, hf] at h2
      exact Bool.false_ne_true h2
    refine List.Nodup.append h (List.nodup_singleton k) ?_
    intro a ha hak
    exact hk ((List.mem_singleton.mp hak) ▸ ha)

lemma skIpTryGw_nodup (st : IpSt) (l : Str)
    (h : (st.cfg.map (fun p => p.1)).Nodup) :
    (((ipTryGw st l).cfg).map (fun p => p.1)).Nodup := by
  unfold ipTryGw
  cases hg : matchIpFieldTok (("default-gateway").data) l with
  | some g => simpa [skUpdD_keys] using h
  | none => exact h

lemma skIpTryVlan_nodup (st : IpSt) (l : Str)
    (h : (st.cfg.map (fun p => p.1)).Nodup) :
    (((ipTryVlan st l).cfg).map (fun p => p.1)).Nodup := by
  unfold ipTryVlan
  cases hv : matchIpFieldNat (("vlan").data) l with
  | some n => simpa [skUpdD_keys] using h
  | none => exact skIpTryGw_nodup st l h

lemma skIpTryPrefix_nodup (st : IpSt) (l : Str)
    (h : (st.cfg.map (fun p => p.1)).Nodup) :
    (((ipTryPrefix st l).cfg).map (fun p => p.1)).Nodup := by
  unfold ipTryPrefix
  cases hp : matchIpFieldNat (("prefix-len").data) l with
  | some n => simpa [skUpdD_keys] using h
  | none => exact skIpTryVlan_nodup st l h

lemma skIpLineCore_nodup (st : IpSt) (l : Str)
    (h : (st.cfg.map (fun p => p.1)).Nodup) :
    (((ipLineCore st l).cfg).map (fun p => p.1)).Nodup := by
  unfold ipLineCore
  by_cases h0 : l = []
  · rw [if_pos h0]
    exact h
  · rw [if_neg h0]
    cases hm : matchIpAddrLine l with
    | some sv => exact skSetD_nodup _ _ _ h
    | none =>
      show (((if st.cur = 0 then st else ipTryPrefix st l).cfg).map (fun p => p.1)).Nodup
      by_cases hc : st.cur = 0
      · rw [if_pos hc]
        exact h
      · rw [if_neg hc]
        exact skIpTryPrefix_nodup st l h

lemma skIpLine_nodup (st : IpSt) (l : Str)
    (h : (st.cfg.map (fun p => p.1)).Nodup) :
    (((ipLine st l).cfg).map (fun p => p.1)).Nodup :=
  skIpLineCore_nodup st (pyStrip l) h

lemma skParse_ip_config_keys_nodup (output : String) :
    ((parse_ip_config output).map (fun p => p.1)).Nodup := by
  unfold parse_ip_config
  suffices h : ∀ (lines : List Str) (st : IpSt),
      (st.cfg.map (fun p => p.1)).Nodup →
      (((lines.foldl ipLine st).cfg).map (fun p => p.1)).Nodup from
    h (splitNl output.data) {} (by simp)
  intro lines
  induction lines with
  | nil => exact fun st h => h
  | cons l ls ih => exact fun st h => ih _ (skIpLine_nodup st l h)

/-- C5 counterexample: in the slot-keyed show ip decoder, a field line
printed with slot 2 is stored in the record of slot 1 (the slot of the
most recent address line), and no record for slot 2 exists: the follow-on
field patterns never compare their own slot digits. -/
theorem ip_field_line_misattributed :
    parse_ip_config (("ip 1 ip-addr : 10.0.0.1\nip 2 prefix-len : 24")) =
      [(1, { ip := some ("10.0.0.1"), prefix_len := some 24,
             vlan := none, default_gateway := none })] ∧
    lookupD 2
      (parse_ip_config (("ip 1 ip-addr : 10.0.0.1\nip 2 prefix-len : 24"))) =
      none := by
  exact ⟨by decide, by decide⟩

/-- C5 amended: the slot-keyed decoders keep at most one record per slot
(the keys of the result are distinct), but a follow-on field line is
attributed to the slot of the most recent address line regardless of the
slot digits printed on it, and a repeated address line resets the record
of its slot; the list-based module-utils decoder stores fields under the
printed slot but emits one record per contiguous run of lines, so
non-contiguous lines for the same slot yield separate records instead of
merging. -/
theorem ip_record_identity_amended :
    (∀ output : String, ((parse_ip_config output).map (fun p => p.1)).Nodup) ∧
    parse_ip_config (("ip 3 ip-addr : 10.0.0.3\nip 4 prefix-len : 28")) =
      [(3, { ip := some ("10.0.0.3"), prefix_len := some 28,
             vlan := none, default_gateway := none })] ∧
    parse_ip_config (("ip 3 ip-addr : a\nip 3 vlan : 5\nip 3 ip-addr : b")) =
      [(3, { ip := some ("b"), prefix_len := none,
             vlan := none, default_gateway := none })] ∧
    parse_ip_config_mu (("ip 1 ip-addr : a\nip 2 ip-addr : b\nip 1 vlan : 7")) =
      [{ slot := 1, fields := [(("ip_addr"), some ("a"))] },
       { slot := 2, fields := [(("ip_addr"), some ("b"))] },
       { slot := 1, fields := [(("vlan"), some ("7"))] }] := by
  exact ⟨skParse_ip_config_keys_nodup, by decide, by decide, by decide⟩

/-! Lemmas about the embedded Except computations and the inventory
assembly. -/

lemma skMBind_ok {ε α β : Type} (a : α) (f : α → Except ε β) :
    ((Except.ok a : Except ε α) >>= f) = f a := rfl

lemma skMBind_error {ε α β : Type} (e : ε) (f : α → Except ε β) :
    ((Except.error e : Except ε α) >>= f) = Except.error e := rfl

lemma skEBind_ok {ε α β : Type} (a : α) (f : α → Except ε β) :
    (Except.ok a : Except ε α).bind f = f a := rfl

lemma skEBind_error {ε α β : Type} (e : ε) (f : α → Except ε β) :
    (Except.error e : Except ε α).bind f = Except.error e := rfl

lemma skEMap_ok {ε α β : Type} (a : α) (f : α → β) :
    (Except.ok a : Except ε α).map f = Except.ok (f a) := rfl

lemma skEMap_error {ε α β : Type} (e : ε) (f : α → β) :
    (Except.error e : Except ε α).map f = Except.error e := rfl

lemma skMapM_ok {ε α β : Type} (f : α → Except ε β) :
    ∀ (l : List α) (out : List β), l.mapM f = Except.ok out →
      List.Forall₂ (fun a b => f a = Except.ok b) l out := by
  intro l
  induction l with
  | nil =>
    intro out h
    rw [List.mapM_nil] at h
    have h2 : Except.ok ([] : List β) = Except.ok out := h
    injection h2 with h3
    subst h3
    exact List.Forall₂.nil
  | cons a as ih =>
    intro out h
    rw [List.mapM_cons] at h
    cases hfa : f a with
    | error e =>
      rw [hfa, skMBind_error] at h
      cases h
    | ok b =>
      rw [hfa, skMBind_ok] at h
      cases hmas : as.mapM f with
      | error e =>
        rw [hmas, skMBind_error] at h
        cases h
      | ok bs =>
        rw [hmas, skMBind_ok] at h
        have h2 : Except.ok (b :: bs) = Except.ok out := h
        injection h2 with h3
        subst h3
        exact List.Forall₂.cons hfa (ih bs hmas)

lemma skForall₂_mem_right {α β : Type} {R : α → β → Prop} :
    ∀ {l : List α} {out : List β}, List.Forall₂ R l out →
      ∀ b ∈ out, ∃ a ∈ l, R a b := by
  intro l out h
  induction h with
  | nil =>
    intro b hb
    cases hb
  | cons hR _ ih =>
    intro b hb
    rcases List.mem_cons.mp hb with h1 | h1
    · subst h1
      exact ⟨_, List.mem_cons_self _ _, hR⟩
    · obtain ⟨a, ha, har⟩ := ih b h1
      exact ⟨a, List.mem_cons_of_mem _ ha, har⟩

lemma skSortSiblings_ok (l out : List TreeNode)
    (h : sortSiblings l = Except.ok out) :
    out.Sorted nodeLe ∧ ∀ n ∈ out, n ∈ l := by
  unfold sortSiblings at h
  by_cases h1 : l.length ≤ 1
  · rw [if_pos h1] at h
    injection h with h2
    subst h2
    refine ⟨?_, fun n hn => hn⟩
    cases l with
    | nil => exact List.sorted_nil
    | cons a as =>
      cases as with
      | nil => exact List.sorted_singleton a
      | cons b bs => simp at h1
  · rw [if_neg h1] at h
    by_cases h2 : l.any (fun n => (sortKeyOf n).isNone)
    · rw [if_pos h2] at h
      cases h
    · rw [if_neg h2] at h
      injection h with h3
      subst h3
      exact ⟨List.sorted_insertionSort nodeLe l,
        fun n hn => (List.perm_insertionSort nodeLe l).mem_iff.mp hn⟩

lemma skBuildH_succ_elim (m : List (Nat × InvComp)) (f pid : Nat)
    (ns : List TreeNode) (h : buildH m (f + 1) pid = Except.ok ns) :
    (∀ n ∈ ns, ∃ p nested, p ∈ m ∧
      (p.2.cont_in == some ((pid : Nat) : Int)) = true ∧
      buildH m f p.1 = Except.ok nested ∧ n = mkNode p.2 nested) ∧
    ns.Sorted nodeLe := by
  unfold buildH at h
  cases hmm : (m.filter (fun p => p.2.cont_in == some ((pid : Nat) : Int))).mapM
      (fun p => (buildH m f p.1).map (fun nested => mkNode p.2 nested)) with
  | error e =>
    rw [hmm, skEBind_error] at h
    cases h
  | ok mid =>
    rw [hmm, skEBind_ok] at h
    have hsort := skSortSiblings_ok mid ns h
    refine ⟨?_, hsort.1⟩
    intro n hn
    have hmid := hsort.2 n hn
    obtain ⟨p, hp, hpe⟩ := skForall₂_mem_right (skMapM_ok _ _ _ hmm) n hmid
    have hpm := List.mem_filter.mp hp
    cases hb : buildH m f p.1 with
    | error e =>
      rw [hb, skEMap_error] at hpe
      cases hpe
    | ok nested =>
      rw [hb, skEMap_ok] at hpe
      injection hpe with h4
      exact ⟨p, nested, hpm.1, hpm.2, hb, h4.symm⟩

lemma skBuildH_hasComps (m : List (Nat × InvComp)) :
    ∀ (fuel pid : Nat) (ns : List TreeNode),
      buildH m fuel pid = Except.ok ns → ∀ n ∈ ns, HasComps n := by
  intro fuel
  induction fuel with
  | zero =>
    intro pid ns h
    cases h
  | succ f ih =>
    intro pid ns h n hn
    obtain ⟨p, nested, _, _, hb, hne⟩ := (skBuildH_succ_elim m f pid ns h).1 n hn
    subst hne
    exact HasComps.mk _ nested (ih p.1 nested hb)

lemma skBuildH_sorted (m : List (Nat × InvComp)) :
    ∀ (fuel pid : Nat) (ns : List TreeNode),
      buildH m fuel pid = Except.ok ns →
      ns.Sorted nodeLe ∧ ∀ n ∈ ns, SortedTree n := by
  intro fuel
  induction fuel with
  | zero =>
    intro pid ns h
    cases h
  | succ f ih =>
    intro pid ns h
    obtain ⟨helems, hsorted⟩ := skBuildH_succ_elim m f pid ns h
    refine ⟨hsorted, ?_⟩
    intro n hn
    obtain ⟨p, nested, _, _, hb, hne⟩ := helems n hn
    subst hne
    refine SortedTree.mk _ (some nested) ?_ ?_
    · intro l hl
      injection hl with h5
      rw [← h5]
      exact (ih p.1 nested hb).1
    · intro l hl n' hn'
      injection hl with h5
      exact (ih p.1 nested hb).2 n' (h5 ▸ hn')

lemma skInvUpd_id (c : InvComp) (k v : Str) : (invUpd c k v).id = c.id := by
  unfold invUpd
  repeat' split
  all_goals rfl

lemma skUpdD_pres_id (k : Nat) (f : InvComp → InvComp)
    (hf : ∀ c, (f c).id = c.id) (m : List (Nat × InvComp))
    (h : ∀ p ∈ m, p.2.id = p.1) :
    ∀ p ∈ updD k f m, p.2.id = p.1 := by
  intro p hp
  unfold updD at hp
  obtain ⟨q, hq, hqe⟩ := List.mem_map.mp hp
  by_cases hqk : (q.1 == k) = true
  · rw [if_pos hqk] at hqe
    rw [← hqe]
    show (f q.2).id = q.1
    rw [hf q.2]
    exact h q hq
  · rw [if_neg hqk] at hqe
    rw [← hqe]
    exact h q hq

lemma skLookupD_none_not_mem (k : Nat) (m : List (Nat × InvComp))
    (h : (lookupD k m).isSome = false) : k ∉ m.map (fun p => p.1) := by
  intro hm
  obtain ⟨p, hp, hpk⟩ := List.mem_map.mp hm
  unfold lookupD at h
  cases hf : m.find? (fun p => p.1 == k) with
  | some q =>
    rw [hf] at h
    simp at h
  | none =>
    have h2 := List.find?_eq_none.mp hf p hp
    rw [hpk] at h2
    simp at h2

lemma skInvApply_wf (m : List (Nat × InvComp)) (cid : Nat) (key v : Str)
    (hnd : (m.map (fun p => p.1)).Nodup) (hid : ∀ p ∈ m, p.2.id = p.1) :
    ((invApply m cid key v).map (fun p => p.1)).Nodup ∧
    ∀ p ∈ invApply m cid key v, p.2.id = p.1 := by
  unfold invApply
  by_cases hl : (lookupD cid m).isSome
  · rw [if_pos hl]
    refine ⟨?_, skUpdD_pres_id cid _ (fun c => skInvUpd_id c key v) m hid⟩
    rw [skUpdD_keys]
    exact hnd
  · rw [if_neg hl]
    have hnotin : cid ∉ m.map (fun p => p.1) :=
      skLookupD_none_not_mem cid m (by simpa using hl)
    have hnd2 : ((m ++ [(cid, ({ id := cid } : InvComp))]).map (fun p => p.1)).Nodup := by
      rw [List.map_append]
      refine List.Nodup.append hnd (List.nodup_singleton cid) ?_
      intro a ha hak
      have hak2 : a = cid := by simpa using hak
      exact hnotin (hak2 ▸ ha)
    have hid2 : ∀ p ∈ m ++ [(cid, ({ id := cid } : InvComp))], p.2.id = p.1 := by
      intro p hp
      rcases List.mem_append.mp hp with h1 | h1
      · exact hid p h1
      · rw [List.mem_singleton.mp h1]
    refine ⟨?_, skUpdD_pres_id cid _ (fun c => skInvUpd_id c key v) _ hid2⟩
    rw [skUpdD_keys]
    exact hnd2

lemma skInvLineCore_wf (m : List (Nat × InvComp)) (l : Str)
    (hnd : (m.map (fun p => p.1)).Nodup) (hid : ∀ p ∈ m, p.2.id = p.1) :
    ((invLineCore m l).map (fun p => p.1)).Nodup ∧
    ∀ p ∈ invLineCore m l, p.2.id = p.1 := by
  unfold invLineCore
  by_cases h0 : l = []
  · rw [if_pos h0]
    exact ⟨hnd, hid⟩
  · rw [if_neg h0]
    cases hm2 : matchInvLine l with
    | none => exact ⟨hnd, hid⟩
    | some kv => exact skInvApply_wf m kv.1 _ _ hnd hid

lemma skCollectInv_wf (output : String) :
    ((collectInv output).map (fun p => p.1)).Nodup ∧
    ∀ p ∈ collectInv output, p.2.id = p.1 := by
  unfold collectInv
  suffices h : ∀ (lines : List Str) (m : List (Nat × InvComp)),
      (m.map (fun p => p.1)).Nodup → (∀ p ∈ m, p.2.id = p.1) →
      (((lines.foldl invLine m).map (fun p => p.1)).Nodup ∧
        ∀ p ∈ lines.foldl invLine m, p.2.id = p.1) from
    h _ [] (by simp) (by simp)
  intro lines
  induction lines with
  | nil => exact fun m hnd hid => ⟨hnd, hid⟩
  | cons a as ih =>
    intro m hnd hid
    obtain ⟨h1, h2⟩ := skInvLineCore_wf m (pyStrip a) hnd hid
    exact ih _ h1 h2

lemma skLookupD_of_mem {k : Nat} {c : InvComp} (m : List (Nat × InvComp))
    (hnd : (m.map (fun p => p.1)).Nodup) (hm : (k, c) ∈ m) :
    lookupD k m = some c := by
  induction m with
  | nil => cases hm
  | cons p ps ih =>
    rw [List.map_cons, List.nodup_cons] at hnd
    rcases List.mem_cons.mp hm with h1 | h1
    · rw [← h1]
      unfold lookupD
      rw [List.find?_cons_of_pos _ (by simp)]
      rfl
    · have hk : k ∈ ps.map (fun p => p.1) := List.mem_map.mpr ⟨(k, c), h1, rfl⟩
      have hne : (p.1 == k) = false := by
        cases hpk : p.1 == k with
        | true =>
          have : p.1 = k := by simpa using hpk
          exact absurd (this ▸ hk) hnd.1
        | false => rfl
      have hstep : lookupD k (p :: ps) = lookupD k ps := by
        unfold lookupD
        rw [List.find?_cons_of_neg _ (by simp [hne])]
      rw [hstep]
      exact ih hnd.2 h1

lemma skMem_listNodeIds (i : Nat) : ∀ (l : List TreeNode),
    i ∈ listNodeIds l ↔ ∃ n ∈ l, i ∈ nodeIds n := by
  intro l
  induction l with
  | nil => simp [listNodeIds]
  | cons n ns ih =>
    rw [show listNodeIds (n :: ns) = nodeIds n ++ listNodeIds ns from rfl]
    rw [List.mem_append, ih]
    constructor
    · rintro (h | ⟨n2, hn2, hi⟩)
      · exact ⟨n, List.mem_cons_self n ns, h⟩
      · exact ⟨n2, List.mem_cons_of_mem n hn2, hi⟩
    · rintro ⟨n2, hn2, hi⟩
      rcases List.mem_cons.mp hn2 with h1 | h1
      · subst h1
        exact Or.inl hi
      · exact Or.inr ⟨n2, h1, hi⟩

lemma skBuildH_reaches (m : List (Nat × InvComp))
    (hnd : (m.map (fun p => p.1)).Nodup)
    (hid : ∀ p ∈ m, p.2.id = p.1) :
    ∀ (fuel pid : Nat) (ns : List TreeNode),
      buildH m fuel pid = Except.ok ns →
      ReachesRoot (parentMapOf m) pid →
      ∀ i ∈ listNodeIds ns, ReachesRoot (parentMapOf m) i := by
  intro fuel
  induction fuel with
  | zero =>
    intro pid ns h
    cases h
  | succ f ih =>
    intro pid ns h hroot i hi
    obtain ⟨helems, _⟩ := skBuildH_succ_elim m f pid ns h
    obtain ⟨n, hn, hin⟩ := (skMem_listNodeIds i ns).mp hi
    obtain ⟨p, nested, hpm, hpc, hb, hne⟩ := helems n hn
    subst hne
    have hids : nodeIds (mkNode p.2 nested) = p.2.id :: listNodeIds nested := rfl
    rw [hids] at hin
    have hpreach : ReachesRoot (parentMapOf m) p.1 := by
      have hcont : p.2.cont_in = some ((pid : Nat) : Int) := by simpa using hpc
      have hpm2 : parentMapOf m p.1 = some ((pid : Nat) : Int) := by
        unfold parentMapOf
        rw [skLookupD_of_mem m hnd hpm, Option.some_bind]
        exact hcont
      exact ReachesRoot.step p.1 pid hpm2 hroot
    rcases List.mem_cons.mp hin with h5 | h5
    · subst h5
      rw [hid p hpm]
      exact hpreach
    · exact ih p.1 nested hb hpreach i h5

/-- C6: no orphan appears anywhere in an assembled inventory tree: every
id occurring in the returned tree reaches the root marker zero through
the cont-in chain of the decoded flat records.  Orphans — records whose
declared parent id has no record, or whose chain never reaches zero — are
silently dropped, never errored. -/
theorem inventory_no_orphans (output : String) (fuel : Nat) (r : InvResult)
    (h : parse_inventoryE output fuel = Except.ok r) :
    ∀ i ∈ resultIds r, ReachesRoot (parentMapOf (collectInv output)) i := by
  obtain ⟨hnd, hid⟩ := skCollectInv_wf output
  unfold parse_inventoryE assembleInv at h
  cases hfind : (collectInv output).find? (fun p => p.2.cont_in == some (0 : Int)) with
  | none =>
    simp only [hfind] at h
    injection h with h2
    rw [← h2]
    intro i hi
    cases hi
  | some p =>
    simp only [hfind] at h
    cases hcid : chassisIdOf p.2 with
    | none =>
      simp only [hcid] at h
      injection h with h2
      rw [← h2]
      intro i hi
      cases hi
    | some cid =>
      simp only [hcid] at h
      cases hb : buildH (collectInv output) fuel cid with
      | error e =>
        rw [hb, skEMap_error] at h
        cases h
      | ok comps =>
        rw [hb, skEMap_ok] at h
        injection h with h2
        rw [← h2]
        have hmem : p ∈ collectInv output := List.mem_of_find?_eq_some hfind
        have hcont : p.2.cont_in = some 0 := by
          have h3 := List.find?_some hfind
          simpa using h3
        have hpm : parentMapOf (collectInv output) p.1 = some 0 := by
          unfold parentMapOf
          rw [skLookupD_of_mem _ hnd hmem, Option.some_bind]
          exact hcont
        have hroot : ReachesRoot (parentMapOf (collectInv output)) p.1 :=
          ReachesRoot.base p.1 hpm
        have hcid2 : cid = p.1 := by
          unfold chassisIdOf at hcid
          cases hov : p.2.idOverride with
          | some s =>
            rw [hov] at hcid
            cases hcid
          | none =>
            rw [hov] at hcid
            injection hcid with h3
            rw [← h3]
            exact hid p hmem
        intro i hi
        have hids : resultIds (InvResult.mk (some (mkNode p.2 comps))) =
            p.2.id :: listNodeIds comps := rfl
        rw [hids] at hi
        rcases List.mem_cons.mp hi with h5 | h5
        · subst h5
          rw [hid p hmem]
          exact hroot
        · exact skBuildH_reaches _ hnd hid fuel cid comps hb (hcid2 ▸ hroot) i h5

/-- Witness for C6 on a small input containing an orphan (record 9 with
nonexistent parent 7): id 2, a member of the assembled tree, reaches the
root marker through the cont-in chain. -/
theorem inventory_no_orphans_witness :
    ReachesRoot (parentMapOf (collectInv
      (("inventory 1 cont-in : 0\ninventory 2 cont-in : 1\ninventory 9 cont-in : 7")))) 2 :=
  inventory_no_orphans
    (("inventory 1 cont-in : 0\ninventory 2 cont-in : 1\ninventory 9 cont-in : 7")) 4
    (InvResult.mk (some (TreeNode.mk { id := 1, cont_in := some 0 }
      (some [TreeNode.mk { id := 2, cont_in := some 1 } (some [])])))) (by rfl)
    2 (by decide)

/-- C7 counterexample: with chassis children 2 (rel-pos 1000) and 3 (no
rel-pos line at all), the decode places 3 before 2: a sibling missing
rel-pos sorts by the sentinel key 999 and therefore comes before a
sibling whose rel-pos is 1000, refuting the claim that siblings lacking
rel-pos appear after every sibling that has one for all values including
999 and above. -/
theorem inventory_missing_relpos_before_1000 :
    chassisChildIds (parse_inventoryE
      (("inventory 1 cont-in : 0\ninventory 2 cont-in : 1\ninventory 2 rel-pos : 1000\ninventory 3 cont-in : 1")) 5) = [3, 2] ∧
    (lookupD 2 (collectInv
      (("inventory 1 cont-in : 0\ninventory 2 cont-in : 1\ninventory 2 rel-pos : 1000\ninventory 3 cont-in : 1")))).map
      (fun c => c.rel_pos) = some (some (some 1000)) ∧
    (lookupD 3 (collectInv
      (("inventory 1 cont-in : 0\ninventory 2 cont-in : 1\ninventory 2 rel-pos : 1000\ninventory 3 cont-in : 1")))).map
      (fun c => c.rel_pos) = some none :=
  ⟨rfl, rfl, rfl⟩

/-- C7 amended: in every successfully assembled inventory tree, each
sibling list is sorted ascending by the effective rel-pos key, where a
missing rel-pos counts as the sentinel 999 — so a missing value sorts
after keys below 999 but before present keys of 1000 and above. -/
theorem inventory_siblings_sorted_amended (output : String) (fuel : Nat)
    (r : InvResult) (n : TreeNode)
    (h : parse_inventoryE output fuel = Except.ok r) (hc : r.chassis = some n) :
    SortedTree n := by
  unfold parse_inventoryE assembleInv at h
  cases hfind : (collectInv output).find? (fun p => p.2.cont_in == some (0 : Int)) with
  | none =>
    simp only [hfind] at h
    injection h with h2
    rw [← h2] at hc
    cases hc
  | some p =>
    simp only [hfind] at h
    cases hcid : chassisIdOf p.2 with
    | none =>
      simp only [hcid] at h
      injection h with h2
      rw [← h2] at hc
      cases hc
    | some cid =>
      simp only [hcid] at h
      cases hb : buildH (collectInv output) fuel cid with
      | error e =>
        rw [hb, skEMap_error] at h
        cases h
      | ok comps =>
        rw [hb, skEMap_ok] at h
        injection h with h2
        rw [← h2] at hc
        have hc2 : some (mkNode p.2 comps) = some n := hc
        injection hc2 with h3
        rw [← h3]
        have hsort := skBuildH_sorted (collectInv output) fuel cid comps hb
        refine SortedTree.mk _ (some comps) ?_ ?_
        · intro l hl
          injection hl with h5
          rw [← h5]
          exact hsort.1
        · intro l hl n2 hn2
          injection hl with h5
          exact hsort.2 n2 (h5 ▸ hn2)

/-- C7 amended witness: the counterexample input decodes to a tree whose
chassis children, in order id 3 then id 2, satisfy the effective-key
sibling order. -/
theorem inventory_siblings_sorted_amended_witness :
    SortedTree (TreeNode.mk { id := 1, cont_in := some 0 }
      (some [TreeNode.mk { id := 3, cont_in := some 1 } (some []),
             TreeNode.mk { id := 2, cont_in := some 1, rel_pos := some (some 1000) } (some [])])) :=
  inventory_siblings_sorted_amended
    (("inventory 1 cont-in : 0\ninventory 2 cont-in : 1\ninventory 2 rel-pos : 1000\ninventory 3 cont-in : 1")) 5
    (InvResult.mk (some (TreeNode.mk { id := 1, cont_in := some 0 }
      (some [TreeNode.mk { id := 3, cont_in := some 1 } (some []),
             TreeNode.mk { id := 2, cont_in := some 1, rel_pos := some (some 1000) } (some [])]))))
    (TreeNode.mk { id := 1, cont_in := some 0 }
      (some [TreeNode.mk { id := 3, cont_in := some 1 } (some []),
             TreeNode.mk { id := 2, cont_in := some 1, rel_pos := some (some 1000) } (some [])]))
    (by rfl) (by rfl)

/-- C10: every node of an assembled inventory tree — the chassis root,
every internal node and every leaf — carries a components entry whose
value is a list, empty for leaves, so consumers can recurse into
components without checking for its presence. -/
theorem inventory_components_always_present (output : String) (fuel : Nat)
    (r : InvResult) (n : TreeNode)
    (h : parse_inventoryE output fuel = Except.ok r) (hc : r.chassis = some n) :
    HasComps n := by
  unfold parse_inventoryE assembleInv at h
  cases hfind : (collectInv output).find? (fun p => p.2.cont_in == some (0 : Int)) with
  | none =>
    simp only [hfind] at h
    injection h with h2
    rw [← h2] at hc
    cases hc
  | some p =>
    simp only [hfind] at h
    cases hcid : chassisIdOf p.2 with
    | none =>
      simp only [hcid] at h
      injection h with h2
      rw [← h2] at hc
      cases hc
    | some cid =>
      simp only [hcid] at h
      cases hb : buildH (collectInv output) fuel cid with
      | error e =>
        rw [hb, skEMap_error] at h
        cases h
      | ok comps =>
        rw [hb, skEMap_ok] at h
        injection h with h2
        rw [← h2] at hc
        have hc2 : some (mkNode p.2 comps) = some n := hc
        injection hc2 with h3
        rw [← h3]
        exact HasComps.mk _ comps (skBuildH_hasComps (collectInv output) fuel cid comps hb)

/-- C10 witness: the decode of a three-record input yields a tree in
which every node, leaf included, carries a components list. -/
theorem inventory_components_always_present_witness :
    HasComps (TreeNode.mk { id := 1, cont_in := some 0 }
      (some [TreeNode.mk { id := 2, cont_in := some 1 } (some [])])) :=
  inventory_components_always_present
    (("inventory 1 cont-in : 0\ninventory 2 cont-in : 1\ninventory 9 cont-in : 7")) 4
    (InvResult.mk (some (TreeNode.mk { id := 1, cont_in := some 0 }
      (some [TreeNode.mk { id := 2, cont_in := some 1 } (some [])]))))
    (TreeNode.mk { id := 1, cont_in := some 0 }
      (some [TreeNode.mk { id := 2, cont_in := some 1 } (some [])]))
    (by rfl) (by rfl)

lemma skBuildH_selfRef : ∀ fuel : Nat,
    buildH [((0 : Nat), ({ id := 0, cont_in := some 0, fields := [((("description") : String), (("EH-8010FX") : String))] } : InvComp))] fuel 0
    = Except.error InvErr.recursionLimit := by
  intro fuel
  induction fuel with
  | zero => rfl
  | succ f ih =>
    have hstep : buildH [((0 : Nat), ({ id := 0, cont_in := some 0, fields := [((("description") : String), (("EH-8010FX") : String))] } : InvComp))] (f + 1) 0 =
      (([((0 : Nat), ({ id := 0, cont_in := some 0, fields := [((("description") : String), (("EH-8010FX") : String))] } : InvComp))].mapM
        (fun p => (buildH [((0 : Nat), ({ id := 0, cont_in := some 0, fields := [((("description") : String), (("EH-8010FX") : String))] } : InvComp))] f p.1).map
          (fun nested => mkNode p.2 nested))).bind sortSiblings) := rfl
    rw [hstep]
    simp only [List.mapM_cons, ih, skEMap_error, skMBind_error, skEBind_error]

/-- C8 code bug: on an input whose single record declares itself as its
own container — the chassis-only fixture of the unit tests of the
repository — the hierarchy walk has no visited-id guard, so the decode
exhausts every recursion budget instead of returning: the budget-indexed
rendering of a Python RecursionError. -/
theorem inventory_self_reference_diverges :
    inventoryDiverges (("inventory 0 description : EH-8010FX\ninventory 0 cont-in : 0\n")) := by
  intro fuel
  have h : parse_inventoryE
      (("inventory 0 description : EH-8010FX\ninventory 0 cont-in : 0\n")) fuel =
      (buildH [((0 : Nat), ({ id := 0, cont_in := some 0, fields := [((("description") : String), (("EH-8010FX") : String))] } : InvComp))] fuel 0).map
        (fun comps => InvResult.mk (some (mkNode ({ id := 0, cont_in := some 0, fields := [((("description") : String), (("EH-8010FX") : String))] } : InvComp) comps))) := rfl
  rw [h, skBuildH_selfRef fuel, skEMap_error]

lemma skBuildH_twoCycle : ∀ fuel : Nat,
    buildH [((0 : Nat), ({ id := 0, cont_in := some 5 } : InvComp)),
            ((5 : Nat), ({ id := 5, cont_in := some 0 } : InvComp))] fuel 0
      = Except.error InvErr.recursionLimit ∧
    buildH [((0 : Nat), ({ id := 0, cont_in := some 5 } : InvComp)),
            ((5 : Nat), ({ id := 5, cont_in := some 0 } : InvComp))] fuel 5
      = Except.error InvErr.recursionLimit := by
  intro fuel
  induction fuel with
  | zero => exact ⟨rfl, rfl⟩
  | succ f ih =>
    constructor
    · have hstep : buildH [((0 : Nat), ({ id := 0, cont_in := some 5 } : InvComp)),
          ((5 : Nat), ({ id := 5, cont_in := some 0 } : InvComp))] (f + 1) 0 =
        (([((5 : Nat), ({ id := 5, cont_in := some 0 } : InvComp))].mapM
          (fun p => (buildH [((0 : Nat), ({ id := 0, cont_in := some 5 } : InvComp)),
            ((5 : Nat), ({ id := 5, cont_in := some 0 } : InvComp))] f p.1).map
            (fun nested => mkNode p.2 nested))).bind sortSiblings) := rfl
      rw [hstep]
      simp only [List.mapM_cons, ih.2, skEMap_error, skMBind_error, skEBind_error]
    · have hstep : buildH [((0 : Nat), ({ id := 0, cont_in := some 5 } : InvComp)),
          ((5 : Nat), ({ id := 5, cont_in := some 0 } : InvComp))] (f + 1) 5 =
        (([((0 : Nat), ({ id := 0, cont_in := some 5 } : InvComp))].mapM
          (fun p => (buildH [((0 : Nat), ({ id := 0, cont_in := some 5 } : InvComp)),
            ((5 : Nat), ({ id := 5, cont_in := some 0 } : InvComp))] f p.1).map
            (fun nested => mkNode p.2 nested))).bind sortSiblings) := rfl
      rw [hstep]
      simp only [List.mapM_cons, ih.1, skEMap_error, skMBind_error, skEBind_error]

/-- C9 code bug: the decoders are not total — on an inventory whose
cont-in declarations form a two-cycle between ids 0 and 5 the inventory
decode exhausts every recursion budget instead of returning a structured
value: the budget-indexed rendering of an uncaught Python
RecursionError, contradicting the claim that every decoder returns and
never raises. -/
theorem inventory_decoder_not_total :
    inventoryDiverges (("inventory 0 cont-in : 5\ninventory 5 cont-in : 0")) := by
  intro fuel
  have h : parse_inventoryE (("inventory 0 cont-in : 5\ninventory 5 cont-in : 0")) fuel =
      (buildH [((0 : Nat), ({ id := 0, cont_in := some 5 } : InvComp)),
        ((5 : Nat), ({ id := 5, cont_in := some 0 } : InvComp))] fuel 5).map
        (fun comps => InvResult.mk (some (mkNode
          ({ id := 5, cont_in := some 0 } : InvComp) comps))) := rfl
  rw [h, (skBuildH_twoCycle fuel).2, skEMap_error]

end SikluEH
